import Mathlib

/-!
Shallow embedding of the `ygw-p1mon` DSMR P1-port decoder (src/p1mon.rs),
together with theorems checking its natural-language specification.

Strings are modelled as `List Char` (the telegrams are ASCII); the byte level
of the serial framer is modelled as `List Nat` with bytes `< 256`.  Error
payloads (the `format!` log/message strings of the Rust code) are not
modelled: fallible functions return `Except Unit` / `Option`.
-/

set_option maxRecDepth 8192

abbrev Str := List Char

/-- Model of Rust `str::split` on a one-character pattern: splits on every
occurrence of `c`, keeping empty pieces; the result is never empty. -/
def splitOnChar (c : Char) : Str → List Str
  | [] => [[]]
  | ch :: rest =>
    let r := splitOnChar c rest
    if ch = c then [] :: r
    else (ch :: r.headD []) :: r.tail

/-- Strip one trailing carriage return (used by the model of `str::lines`). -/
def stripCR (l : Str) : Str :=
  if l.getLast? = some '\r' then l.dropLast else l

/-- Model of Rust `str::lines`: split at `'\n'`, dropping one `'\r'` just
before each removed `'\n'`; a final piece with no line terminator is kept
verbatim, and a trailing terminator produces no empty final line. -/
def rustLines (s : Str) : List Str :=
  if s = [] then []
  else if s.getLast? = some '\n' then ((splitOnChar '\n' s).dropLast).map stripCR
  else
    let parts := splitOnChar '\n' s
    parts.dropLast.map stripCR ++ [parts.getLastD []]

/-! ## The group-line parser (`split_p1_line`, src/p1mon.rs lines 349-389)

The Rust function scans the line once with a small state machine
(`0` = before the first group, `1` = inside a group, `2` = outside, after a
group), collecting string slices of the original line. -/

/-- Scanner state of `split_p1_line`: the Rust locals `state`, `k`, `result`. -/
structure ScanSt where
  state : Nat
  k : Nat
  result : List Str
deriving DecidableEq, Repr

/-- One character of the `split_p1_line` scan (the body of the `for` loop).
`line` is the whole line (slices are taken from it), `i` the index of `c`. -/
def splitStep (line : Str) (i : Nat) (c : Char) (s : ScanSt) : Except Unit ScanSt :=
  if c = '(' then
    if s.state = 0 then .ok ⟨1, i, s.result ++ [line.take i]⟩
    else if s.state ≠ 2 then .error ()
    else .ok ⟨1, i, s.result⟩
  else if c = ')' then
    if s.state ≠ 1 then .error ()
    else .ok ⟨2, s.k, s.result ++ [(line.drop (s.k + 1)).take (i - (s.k + 1))]⟩
  else .ok s

/-- Run the `split_p1_line` scanner over `cs`, `i` being the index in `line`
of the first character of `cs`. -/
def scanFrom (line : Str) : Nat → ScanSt → Str → Except Unit ScanSt
  | _, s, [] => .ok s
  | i, s, c :: cs =>
    match splitStep line i c s with
    | .error e => .error e
    | .ok s' => scanFrom line (i + 1) s' cs

/-- `split_p1_line` (src/p1mon.rs 349-389): split `CODE(g1)(g2)...` into
`[CODE, g1, g2, ...]`, an error if a `(` occurs inside a group, a `)` occurs
outside a group, or the scan does not end right after a closed group. -/
def split_p1_line (line : Str) : Except Unit (List Str) :=
  match scanFrom line 0 ⟨0, 0, []⟩ line with
  | .error e => .error e
  | .ok s => if s.state ≠ 2 then .error () else .ok s.result

/-! ## CRC-16/ARC (the `crc16` crate's `State::<ARC>::calculate`)

Reflected polynomial `0xA001`, initial value `0`, no final XOR; the state is
a 16-bit value modelled as a `Nat < 65536`. -/

/-- One LSB-first shift step of the reflected CRC-16/ARC. -/
def bitStep (c : Nat) : Nat :=
  if c % 2 = 1 then (c / 2) ^^^ 0xA001 else c / 2

/-- `n` iterated CRC shift steps. -/
def bitSteps : Nat → Nat → Nat
  | 0, c => c
  | n + 1, c => bitSteps n (bitStep c)

/-- Absorb one message byte into the CRC state (xor into the low bits, then
eight shift steps). -/
def crcRound (c b : Nat) : Nat := bitSteps 8 (c ^^^ b)

/-- CRC-16/ARC of a byte sequence. -/
def crc16arc (bs : List Nat) : Nat := bs.foldl crcRound 0

/-! ## Hex checksum parsing (`u16::from_str_radix(hex, 16)`) -/

/-- Value of one ASCII hex-digit byte. -/
def hexValB (b : Nat) : Option Nat :=
  if 48 ≤ b ∧ b ≤ 57 then some (b - 48)
  else if 97 ≤ b ∧ b ≤ 102 then some (b - 87)
  else if 65 ≤ b ∧ b ≤ 70 then some (b - 55)
  else none

/-- Model of `u16::from_str_radix(s, 16)` on the 4 checksum bytes: one
optional leading `+`, then a nonempty run of hex digits.  (With at most four
digits the value always fits in a `u16`, so overflow cannot occur.) -/
def parseHexU16 (bs : List Nat) : Option Nat :=
  let ds := if bs.headD 0 = 43 then bs.tail else bs
  if ds = [] then none
  else
    ds.foldl (fun acc b => do
      let v ← acc
      let d ← hexValB b
      pure (16 * v + d)) (some 0)

/-! ## The telegram framer (`process_serial_data`, src/p1mon.rs 133-199)

One loop iteration appends the newly read line to the buffer `p1t` and acts
on the parser state; `m_idx` is the buffer length recorded when the start
line was seen, `n_idx` the buffer length before the new line. -/

inductive ParserState
  | LookForStart
  | LookForEnd
deriving DecidableEq, Repr

structure FrState where
  state : ParserState
  p1t : List Nat
  m_idx : Nat
deriving DecidableEq, Repr

/-- One iteration of the `process_serial_data` loop on a successfully read
line (src/p1mon.rs 161-195).  Returns the new state and, when a telegram
passes the checksum gate, the body handed to `process_p1telegram`. -/
def framerStep (s : FrState) (line : List Nat) : FrState × Option (List Nat) :=
  let n_idx := s.p1t.length
  let p1t := s.p1t ++ line
  match s.state with
  | .LookForStart =>
    if p1t.getD 0 0 = 47 then (⟨.LookForEnd, p1t, p1t.length⟩, none)
    else (⟨.LookForStart, [], s.m_idx⟩, none)
  | .LookForEnd =>
    if p1t.getD n_idx 0 = 33 then
      if n_idx + 5 ≤ p1t.length then
        match parseHexU16 ((p1t.drop (n_idx + 1)).take 4) with
        | none => (⟨.LookForEnd, p1t, s.m_idx⟩, none)
        | some crc =>
          if crc ≠ crc16arc (p1t.take (n_idx + 1)) then
            (⟨.LookForStart, [], s.m_idx⟩, none)
          else
            (⟨.LookForStart, [], s.m_idx⟩, some ((p1t.drop s.m_idx).take (n_idx - s.m_idx)))
      else (⟨.LookForStart, [], s.m_idx⟩, none)
    else (⟨.LookForEnd, p1t, s.m_idx⟩, none)

/-- Run the framer over a list of read lines, collecting dispatched bodies. -/
def framerRun (s : FrState) : List (List Nat) → FrState × List (List Nat)
  | [] => (s, [])
  | l :: ls =>
    let (s', out) := framerStep s l
    let (s'', outs) := framerRun s' ls
    (s'', out.toList ++ outs)

/-! ## The parameter registry (`DmsrParamType`, `DmsrParam`, `read_codes`) -/

inductive DmsrParamType
  | Float
  | Integer
  | String
deriving DecidableEq, Repr

/-- `DmsrParamType::from_str` (src/p1mon.rs 30-42): case-insensitive match of
`float` / `integer` / `string`.  (Rust lowercases with the full Unicode
mapping; the ASCII mapping used here agrees with it on ASCII input.) -/
def DmsrParamType.from_str (s : Str) : Except Unit DmsrParamType :=
  let l := s.map Char.toLower
  if l = "float".data then .ok .Float
  else if l = "integer".data then .ok .Integer
  else if l = "string".data then .ok .String
  else .error ()

/-- The per-code registry record (struct `DmsrParam`, src/p1mon.rs 44-54). -/
structure DmsrParam where
  description : Str
  name : Str
  ptype : DmsrParamType
  defined : Bool
  pid : Nat
deriving DecidableEq, Repr

/-- The `HashMap<String, DmsrParam>` of OBIS codes, modelled as an
association list looked up on the first matching key. -/
abbrev Registry := List (Str × DmsrParam)

/-- `HashMap::insert`: replace the entry of an existing key in place,
otherwise append. -/
def insertA : Registry → Str → DmsrParam → Registry
  | [], k, v => [(k, v)]
  | e :: es, k, v => if e.1 = k then (k, v) :: es else e :: insertA es k v

/-- Loop of `read_codes` (src/p1mon.rs 391-426) over the remaining input
lines, carrying the map built so far and the next `pid`. -/
def read_codesAux (m : Registry) (pid : Nat) : List Str → Except Unit Registry
  | [] => .ok m
  | l :: ls =>
    if l = [] ∨ l.getD 0 ' ' = '#' then read_codesAux m pid ls
    else
      let parts := splitOnChar ',' l
      if parts.length = 4 then
        match DmsrParamType.from_str (parts.getD 2 []) with
        | .error e => .error e
        | .ok pt =>
          read_codesAux (insertA m (parts.getD 0 [])
            ⟨parts.getD 3 [], parts.getD 1 [], pt, false, pid⟩) (pid + 1) ls
      else .error ()

/-- `read_codes` (src/p1mon.rs 391-426), as a function of the lines of
`obiscodes.csv` (the file I/O itself is not modelled). -/
def read_codes (ls : List Str) : Except Unit Registry := read_codesAux [] 0 ls

/-! ## Value decoding (`get_pvalue`, src/p1mon.rs 319-343) -/

def allDigits (cs : Str) : Bool := cs.all Char.isDigit

def digVal (c : Char) : Nat := c.toNat - 48

def natOfDigits (cs : Str) : Nat := cs.foldl (fun a c => 10 * a + digVal c) 0

/-- Model of Rust `str::parse::<i64>`: optional sign, then a nonempty digit
run, rejected when the value leaves the `i64` range. -/
def parseI64 (s : Str) : Option Int :=
  let sgn : Int := if s.headD ' ' = '-' then -1 else 1
  let ds := if s.headD ' ' = '-' ∨ s.headD ' ' = '+' then s.tail else s
  if ds ≠ [] ∧ allDigits ds then
    let v : Int := sgn * natOfDigits ds
    if -(2 ^ 63) ≤ v ∧ v < 2 ^ 63 then some v else none
  else none

/-- Model of the decimal fragment of Rust `str::parse::<f64>`: optional sign,
then digits with at most one point and a digit on at least one side.  The
payload is kept as the exact rational; rounding to a binary double and the
`inf` / `nan` / exponent spellings are not modelled (no claim checked here
depends on a float payload, only on the shape of the emitted records). -/
def parseF64 (s : Str) : Option Rat :=
  let sgn : Rat := if s.headD ' ' = '-' then -1 else 1
  let ds := if s.headD ' ' = '-' ∨ s.headD ' ' = '+' then s.tail else s
  match splitOnChar '.' ds with
  | [a] => if a ≠ [] ∧ allDigits a then some (sgn * natOfDigits a) else none
  | [a, b] =>
    if (a ≠ [] ∨ b ≠ []) ∧ allDigits a ∧ allDigits b then
      some (sgn * ((natOfDigits a : Rat) + (natOfDigits b : Rat) / 10 ^ b.length))
    else none
  | _ => none

/-- The protobuf `Value` payload actually used (`value::V`). -/
inductive EngValue
  | floatValue (q : Rat)
  | sint64Value (i : Int)
  | stringValue (s : Str)
deriving DecidableEq, Repr

/-- Outgoing `ParameterValue` (only the fields the code sets are kept;
`raw_value`, the per-value times and `expire_millis` are always `None`). -/
structure ParameterValue where
  id : Nat
  eng_value : Option EngValue
deriving DecidableEq, Repr

/-- `get_pvalue` (src/p1mon.rs 319-343).  Note that it returns `some` even
when the numeric parse fails: the record is then carried with an empty
`eng_value`. -/
def get_pvalue (p : DmsrParam) (str_value : Str) : Option ParameterValue :=
  let eng_value : Option EngValue :=
    match p.ptype with
    | .Float => (parseF64 str_value).map .floatValue
    | .Integer => (parseI64 str_value).map .sint64Value
    | .String => some (.stringValue str_value)
  some ⟨p.pid, eng_value⟩

/-! ## Timestamp decoding (`get_timestamp`, src/p1mon.rs 293-317)

`chrono::NaiveDateTime::parse_from_str(s, "%y%m%d%H%M%S")` and
`ygw::utc_converter::utc_to_instant` live in external crates; they are
modelled here from the spec: a fixed two-digit-field layout with calendar
validation, converted to milliseconds since the Unix epoch. -/

structure DateTimeComponents where
  year : Nat
  month : Nat
  day : Nat
  hour : Nat
  minute : Nat
  second : Nat
deriving DecidableEq, Repr

def isLeap (y : Nat) : Bool := y % 4 = 0 && (y % 100 ≠ 0 || y % 400 = 0)

def daysInMonth (y m : Nat) : Nat :=
  if m = 2 then (if isLeap y then 29 else 28)
  else if m = 4 ∨ m = 6 ∨ m = 9 ∨ m = 11 then 30 else 31

/-- Days from 0000-03-01 to the given civil date (Gregorian, proleptic). -/
def civilDays (y m d : Nat) : Nat :=
  let y' := if m ≤ 2 then y - 1 else y
  let era := y' / 400
  let yoe := y' % 400
  let mp := if 2 < m then m - 3 else m + 9
  let doy := (153 * mp + 2) / 5 + (d - 1)
  let doe := yoe * 365 + yoe / 4 - yoe / 100 + doy
  era * 146097 + doe

/-- Modelled from the spec: `ygw::utc_converter::utc_to_instant` (the `ygw`
crate is outside this repository) — the absolute instant of a UTC civil
date-time, as milliseconds since 1970-01-01T00:00:00Z (`millis` is always 0
at the call site, src/p1mon.rs 309). -/
def utc_to_instant (c : DateTimeComponents) : Int :=
  (((civilDays c.year c.month c.day : Int) - 719468) * 86400
    + c.hour * 3600 + c.minute * 60 + c.second) * 1000

def twoDigits (cs : Str) : Nat := 10 * digVal (cs.getD 0 '0') + digVal (cs.getD 1 '0')

/-- Modelled from the spec: `chrono` parsing with the fixed layout
`%y%m%d%H%M%S` (the `chrono` crate is outside this repository) — twelve
digits, two per field, the two-digit year mapped to 2000-2068 / 1969-1999,
with calendar range validation. -/
def parseYMDHMS (cs : Str) : Option DateTimeComponents :=
  if cs.length = 12 ∧ allDigits cs then
    let yy := twoDigits cs
    let year := if yy ≤ 68 then 2000 + yy else 1900 + yy
    let month := twoDigits (cs.drop 2)
    let day := twoDigits (cs.drop 4)
    let hour := twoDigits (cs.drop 6)
    let minute := twoDigits (cs.drop 8)
    let second := twoDigits (cs.drop 10)
    if 1 ≤ month ∧ month ≤ 12 ∧ 1 ≤ day ∧ day ≤ daysInMonth year month
        ∧ hour ≤ 23 ∧ minute ≤ 59 ∧ second ≤ 59 then
      some ⟨year, month, day, hour, minute, second⟩
    else none
  else none

/-- `get_timestamp` (src/p1mon.rs 293-317): strip one optional trailing `S`,
parse `YYMMDDhhmmss`, convert to an absolute instant (here: Unix millis). -/
def get_timestamp (str_value : Str) : Option Int :=
  let s := if str_value.getLast? = some 'S' then str_value.dropLast else str_value
  (parseYMDHMS s).map utc_to_instant

/-! ## Parameter definitions (`get_pdef`, src/p1mon.rs 282-291) -/

def DmsrParamType.debugStr : DmsrParamType → Str
  | .Float => "Float".data
  | .Integer => "Integer".data
  | .String => "String".data

/-- Outgoing `ParameterDefinition`. -/
structure ParameterDefinition where
  relative_name : Str
  description : Str
  unit : Option Str
  ptype : Str
  writable : Option Bool
  id : Nat
deriving DecidableEq, Repr

/-- `get_pdef` (src/p1mon.rs 282-291); `ptype` is the `Debug` rendering of
the enum, as in `format!`. -/
def get_pdef (p : DmsrParam) (unit : Option Str) : ParameterDefinition :=
  ⟨p.name, p.description, unit, p.ptype.debugStr, some false, p.pid⟩

/-! ## The telegram dispatcher (`process_p1telegram`, src/p1mon.rs 204-279) -/

/-- Set `defined := true` on the entry of code `c` (the in-place
`dmsr_param.defined = true` through `HashMap::get_mut`). -/
def setDefinedTrue (R : Registry) (c : Str) : Registry :=
  R.map fun e =>
    if e.1 = c then (e.1, ⟨e.2.description, e.2.name, e.2.ptype, true, e.2.pid⟩) else e

/-- The loop state of `process_p1telegram`: the registry (mutated through
`get_mut`) and the locals `pdefs`, `pvalues`, `gentime`. -/
structure LineAcc where
  reg : Registry
  pdefs : List ParameterDefinition
  pvalues : List ParameterValue
  gentime : Option Int
deriving DecidableEq, Repr

/-- One iteration of the line loop of `process_p1telegram`
(src/p1mon.rs 212-246). -/
def processLine (acc : LineAcc) (line : Str) : LineAcc :=
  if line = [] then acc
  else
    match split_p1_line line with
    | .error _ => acc
    | .ok v =>
      match List.lookup (v.getD 0 []) acc.reg with
      | none => acc
      | some p =>
        if p.name = "ignore".data then acc
        else
          let a := splitOnChar '*' (v.getD 1 [])
          let unit : Option Str := a[1]?
          let reg := if p.defined then acc.reg else setDefinedTrue acc.reg (v.getD 0 [])
          let pdefs := if p.defined then acc.pdefs else acc.pdefs ++ [get_pdef p unit]
          if p.name = "timestamp".data then
            ⟨reg, pdefs, acc.pvalues, get_timestamp (a.getD 0 [])⟩
          else
            match get_pvalue p (a.getD 0 []) with
            | some pv => ⟨reg, pdefs, acc.pvalues ++ [pv], acc.gentime⟩
            | none => ⟨reg, pdefs, acc.pvalues, acc.gentime⟩

/-- The line loop of `process_p1telegram` over the whole telegram body. -/
def processTelegram (R : Registry) (p1t : Str) : LineAcc :=
  (rustLines p1t).foldl processLine ⟨R, [], [], none⟩

/-- Outgoing `ParameterData` batch (the fields the code sets; the `group`
label is a fixed configuration string and is left out). -/
structure ParameterData where
  parameters : List ParameterValue
  seq_num : Nat
  generation_time : Option Int
  acquisition_time : Option Int
deriving DecidableEq, Repr

/-- The two message kinds `process_p1telegram` can send. -/
inductive YgwMessage
  | parameterDefinitions (defs : List ParameterDefinition)
  | parameterData (d : ParameterData)
deriving DecidableEq, Repr

/-- `process_p1telegram` (src/p1mon.rs 204-279): process one accepted
telegram body, returning the updated registry, the updated `seq_count`, and
the messages sent (definitions first, then at most one value batch).  `now`
is the receipt time `ygw::protobuf::now()`. -/
def processP1Telegram (R : Registry) (seq : Nat) (now : Int) (p1t : Str) :
    Registry × Nat × List YgwMessage :=
  let acc := processTelegram R p1t
  let m1 : List YgwMessage :=
    if 0 < acc.pdefs.length then [.parameterDefinitions acc.pdefs] else []
  let generation_time := acc.gentime.or (some now)
  let m2 : List YgwMessage :=
    if 0 < acc.pvalues.length then
      [.parameterData ⟨acc.pvalues, seq, generation_time, some now⟩]
    else []
  let seq' := if 0 < acc.pvalues.length then seq + 1 else seq
  (acc.reg, seq', m1 ++ m2)

/-- Iterated processing of a sequence of accepted telegrams, each with its
receipt time. -/
def processRun (R : Registry) (seq : Nat) : List (Int × Str) → Registry × Nat × List YgwMessage
  | [] => (R, seq, [])
  | (now, t) :: ts =>
    let (R', seq', ms) := processP1Telegram R seq now t
    let (R'', seq'', ms') := processRun R' seq' ts
    (R'', seq'', ms ++ ms')

/-! ## Helper definitions used by the claim statements -/

/-- A string containing neither parenthesis (legal CODE / group content). -/
def parenFree (cs : Str) : Bool := cs.all fun ch => (ch != '(') && (ch != ')')

/-- The text of a well-formed group line `CODE(g1)(g2)...`. -/
def glineStr (c : Str) (gs : List Str) : Str :=
  c ++ (gs.map fun g => '(' :: (g ++ [')'])).flatten

/-- The definitions carried by one outgoing message. -/
def defsPart : YgwMessage → List ParameterDefinition
  | .parameterDefinitions ds => ds
  | .parameterData _ => []

/-- All parameter definitions carried by a message sequence. -/
def defsOf (ms : List YgwMessage) : List ParameterDefinition := (ms.map defsPart).flatten

/-- The `seq_num`s of the value batches of a message sequence, in order. -/
def valueSeqs (ms : List YgwMessage) : List Nat :=
  ms.filterMap fun m =>
    match m with
    | .parameterData d => some d.seq_num
    | .parameterDefinitions _ => none

/-- How many of the definitions carry numeric id `pid`. -/
def countPid (pid : Nat) (ds : List ParameterDefinition) : Nat :=
  (ds.filter fun d => d.id == pid).length

/-- The line parses as a group line whose code is `c` (a "reference" to the
registry code `c`). -/
def refsCodeB (c : Str) (line : Str) : Bool :=
  !(line == []) &&
    (match split_p1_line line with
     | .ok v => v.getD 0 [] == c
     | .error _ => false)

/-- Some line of the telegram body references code `c`. -/
def teleRefs (c : Str) (t : Str) : Bool := (rustLines t).any (refsCodeB c)

/-- Some telegram of the run references code `c`. -/
def runRefs (c : Str) (ts : List (Int × Str)) : Bool := ts.any fun x => teleRefs c x.2

/-- Within `R`, numeric id `pid` occurs only on entries keyed `c`. -/
def pidInjAt (R : Registry) (c : Str) (pid : Nat) : Prop :=
  ∀ e ∈ R, e.2.pid = pid → e.1 = c

/-- `p` with its `defined` flag replaced. -/
def setDef (p : DmsrParam) (d : Bool) : DmsrParam :=
  ⟨p.description, p.name, p.ptype, d, p.pid⟩

/-- The `kind` field is one of the recognized tokens. -/
def kindOk (s : Str) : Bool :=
  match DmsrParamType.from_str s with
  | .ok _ => true
  | .error _ => false

/-- A registry-source line skipped by `read_codes` (blank or comment). -/
def skipLine (l : Str) : Bool := (l == []) || (l.getD 0 ' ' == '#')

/-- The comma-split records of the non-skipped registry-source lines. -/
def validRecs (ls : List Str) : List (List Str) :=
  (ls.filter fun l => !skipLine l).map (splitOnChar ',')

/-- The last record whose code field is `c`, with its appearance index
(counting from `pid`). -/
def lastRecFor (c : Str) (pid : Nat) : List (List Str) → Option (Nat × List Str)
  | [] => none
  | parts :: rs =>
    match lastRecFor c (pid + 1) rs with
    | some x => some x
    | none => if parts.getD 0 [] = c then some (pid, parts) else none

/-- The `DmsrParam` built from record `parts` at appearance index `i`. -/
def recParam (parts : List Str) (i : Nat) : Option DmsrParam :=
  match DmsrParamType.from_str (parts.getD 2 []) with
  | .ok pt => some ⟨parts.getD 3 [], parts.getD 1 [], pt, false, i⟩
  | .error _ => none

/-- `bs` with bit `t` of byte `j` flipped. -/
def flipBit (bs : List Nat) (j t : Nat) : List Nat :=
  bs.set j ((bs.getD j 0) ^^^ 2 ^ t)

/-- A small concrete registry used by witnesses. -/
def demoReg : Registry :=
  [("V".data, ⟨"volts".data, "voltage".data, .Float, false, 0⟩),
   ("T".data, ⟨"time".data, "timestamp".data, .String, false, 1⟩),
   ("I".data, ⟨"skip".data, "ignore".data, .String, false, 2⟩)]

/-- A small concrete telegram body used by witnesses. -/
def demoTele : Str := "V(235.2*V)\r\nT(240506201011S)\r\n".data

/-! # Theorems -/

/-! ## The group-line parser (claims about `split_p1_line`) -/

lemma splitStep_open0 (line : Str) (i k : Nat) (res : List Str) :
    splitStep line i '(' ⟨0, k, res⟩ = .ok ⟨1, i, res ++ [line.take i]⟩ := by
  simp [splitStep]

lemma splitStep_open1 (line : Str) (i k : Nat) (res : List Str) :
    splitStep line i '(' ⟨1, k, res⟩ = .error () := by
  simp [splitStep]

lemma splitStep_open2 (line : Str) (i k : Nat) (res : List Str) :
    splitStep line i '(' ⟨2, k, res⟩ = .ok ⟨1, i, res⟩ := by
  simp [splitStep]

lemma splitStep_close1 (line : Str) (i k : Nat) (res : List Str) :
    splitStep line i ')' ⟨1, k, res⟩ =
      .ok ⟨2, k, res ++ [(line.drop (k + 1)).take (i - (k + 1))]⟩ := by
  simp [splitStep]

lemma splitStep_close_not1 (line : Str) (i : Nat) (s : ScanSt) (h : s.state ≠ 1) :
    splitStep line i ')' s = .error () := by
  simp [splitStep, h]

lemma splitStep_other (line : Str) (i : Nat) (c : Char) (s : ScanSt)
    (h1 : c ≠ '(') (h2 : c ≠ ')') : splitStep line i c s = .ok s := by
  simp [splitStep, h1, h2]

lemma scanFrom_append (line : Str) (p q : Str) : ∀ (i : Nat) (s : ScanSt),
    scanFrom line i s (p ++ q) =
      match scanFrom line i s p with
      | .error e => .error e
      | .ok s' => scanFrom line (i + p.length) s' q := by
  induction p with
  | nil => intro i s; simp [scanFrom]
  | cons c cs ih =>
    intro i s
    simp only [List.cons_append, scanFrom]
    cases splitStep line i c s with
    | error e => rfl
    | ok s' =>
      dsimp only
      rw [show cs.append q = cs ++ q from rfl, ih]
      have h : i + 1 + cs.length = i + (c :: cs).length := by simp; omega
      rw [h]

lemma scanFrom_parenFree (line : Str) : ∀ (cs : Str), parenFree cs = true →
    ∀ (i : Nat) (s : ScanSt), scanFrom line i s cs = .ok s := by
  intro cs
  induction cs with
  | nil => intro _ i s; simp [scanFrom]
  | cons c cs ih =>
    intro h i s
    simp only [parenFree, List.all_cons, Bool.and_eq_true, bne_iff_ne, ne_eq,
      decide_eq_true_eq] at h
    obtain ⟨⟨h1, h2⟩, h3⟩ := h
    simp only [scanFrom, splitStep_other line i c s h1 h2]
    exact ih (by simpa [parenFree] using h3) (i + 1) s

lemma scanFrom_group2 (line g rest : Str) (hg : parenFree g = true) (i k : Nat)
    (res : List Str) (hdrop : line.drop i = '(' :: (g ++ ')' :: rest)) :
    scanFrom line i ⟨2, k, res⟩ ('(' :: (g ++ [')'])) = .ok ⟨2, i, res ++ [g]⟩ := by
  have h1 : line.drop (i + 1) = g ++ ')' :: rest := by
    have := congrArg (List.drop 1) hdrop
    rw [List.drop_drop] at this
    simpa [Nat.add_comm] using this
  simp only [scanFrom, splitStep_open2]
  rw [scanFrom_append, scanFrom_parenFree line g hg]
  simp only [scanFrom, splitStep_close1]
  rw [h1]
  have h2 : i + 1 + g.length - (i + 1) = g.length := by omega
  rw [h2, List.take_left]

lemma scanFrom_group0 (line g rest : Str) (hg : parenFree g = true) (i k : Nat)
    (res : List Str) (hdrop : line.drop i = '(' :: (g ++ ')' :: rest)) :
    scanFrom line i ⟨0, k, res⟩ ('(' :: (g ++ [')'])) =
      .ok ⟨2, i, res ++ [line.take i, g]⟩ := by
  have h1 : line.drop (i + 1) = g ++ ')' :: rest := by
    have := congrArg (List.drop 1) hdrop
    rw [List.drop_drop] at this
    simpa [Nat.add_comm] using this
  simp only [scanFrom, splitStep_open0]
  rw [scanFrom_append, scanFrom_parenFree line g hg]
  simp only [scanFrom, splitStep_close1]
  rw [h1]
  have h2 : i + 1 + g.length - (i + 1) = g.length := by omega
  rw [h2, List.take_left]
  simp

lemma scanFrom_groups (line : Str) : ∀ (gs : List Str) (i k : Nat) (res : List Str),
    (∀ g ∈ gs, parenFree g = true) →
    line.drop i = (gs.map fun g => '(' :: (g ++ [')'])).flatten →
    ∃ k', scanFrom line i ⟨2, k, res⟩ ((gs.map fun g => '(' :: (g ++ [')'])).flatten) =
      .ok ⟨2, k', res ++ gs⟩ := by
  intro gs
  induction gs with
  | nil => intro i k res _ _; exact ⟨k, by simp [scanFrom]⟩
  | cons g gs ih =>
    intro i k res hpf hdrop
    simp only [List.map_cons, List.flatten_cons] at hdrop ⊢
    rw [scanFrom_append]
    have hseg : ('(' :: (g ++ [')'])) ++ (gs.map fun g => '(' :: (g ++ [')'])).flatten
        = '(' :: (g ++ ')' :: (gs.map fun g => '(' :: (g ++ [')'])).flatten) := by
      simp
    rw [hseg] at hdrop
    rw [scanFrom_group2 line g _ (hpf g (by simp)) i k res hdrop]
    have hdrop' : line.drop (i + ('(' :: (g ++ [')'])).length)
        = (gs.map fun g => '(' :: (g ++ [')'])).flatten := by
      rw [← List.drop_drop, hdrop]
      rw [show ('(' :: (g ++ [')'])).length = (('(' :: g) ++ [')']).length by simp]
      rw [show ('(' :: (g ++ ')' :: (gs.map fun g => '(' :: (g ++ [')'])).flatten))
          = (('(' :: g) ++ [')']) ++ (gs.map fun g => '(' :: (g ++ [')'])).flatten by simp]
      exact List.drop_left _ _
    obtain ⟨k', hk'⟩ := ih (i + ('(' :: (g ++ [')'])).length) i (res ++ [g])
      (fun g hgm => hpf g (by simp [hgm])) hdrop'
    refine ⟨k', ?_⟩
    dsimp only
    rw [hk']
    simp

lemma split_p1_line_valid (c : Str) (gs : List Str) (hc : parenFree c = true)
    (hne : gs ≠ []) (hgs : ∀ g ∈ gs, parenFree g = true) :
    split_p1_line (glineStr c gs) = .ok (c :: gs) := by
  obtain ⟨g0, gs', rfl⟩ : ∃ g0 gs', gs = g0 :: gs' := by
    cases gs with
    | nil => exact absurd rfl hne
    | cons a b => exact ⟨a, b, rfl⟩
  unfold split_p1_line glineStr
  rw [scanFrom_append, scanFrom_parenFree _ c hc]
  dsimp only
  simp only [List.map_cons, List.flatten_cons]
  rw [scanFrom_append]
  have hline : (c ++ ('(' :: (g0 ++ [')']) ++ (gs'.map fun g => '(' :: (g ++ [')'])).flatten)).drop (0 + c.length)
      = '(' :: (g0 ++ ')' :: (gs'.map fun g => '(' :: (g ++ [')'])).flatten) := by
    rw [Nat.zero_add, List.drop_left]
    simp
  rw [scanFrom_group0 _ g0 _ (hgs g0 (by simp)) _ _ _ hline]
  dsimp only
  have htake : (c ++ ('(' :: (g0 ++ [')']) ++ (gs'.map fun g => '(' :: (g ++ [')'])).flatten)).take (0 + c.length) = c := by
    rw [Nat.zero_add, List.take_left]
  have hdrop2 : (c ++ ('(' :: (g0 ++ [')']) ++ (gs'.map fun g => '(' :: (g ++ [')'])).flatten)).drop
      (0 + c.length + ('(' :: (g0 ++ [')'])).length)
      = (gs'.map fun g => '(' :: (g ++ [')'])).flatten := by
    rw [Nat.zero_add, ← List.drop_drop, List.drop_left]
    rw [show ('(' :: (g0 ++ [')'])).length = (('(' :: g0) ++ [')']).length by simp]
    rw [show ('(' :: (g0 ++ [')'])) ++ (gs'.map fun g => '(' :: (g ++ [')'])).flatten
        = (('(' :: g0) ++ [')']) ++ (gs'.map fun g => '(' :: (g ++ [')'])).flatten by simp]
    exact List.drop_left _ _
  obtain ⟨k', hk'⟩ := scanFrom_groups _ gs' (0 + c.length + ('(' :: (g0 ++ [')'])).length)
    (0 + c.length) ([] ++ [_, g0]) (fun g hgm => hgs g (by simp [hgm])) hdrop2
  rw [hk']
  rw [htake]
  simp

lemma scanFrom_noClose (line : Str) : ∀ (cs : Str), ')' ∉ cs → ∀ (i : Nat) (s : ScanSt),
    s.state ≠ 2 →
    scanFrom line i s cs = .error () ∨
      ∃ s', scanFrom line i s cs = .ok s' ∧ s'.state ≠ 2 := by
  intro cs
  induction cs with
  | nil => intro _ i s hs; exact Or.inr ⟨s, rfl, hs⟩
  | cons c cs ih =>
    intro h i s hs
    have hc : ')' ∉ cs := fun hm => h (List.mem_cons_of_mem _ hm)
    have hcne : c ≠ ')' := fun he => h (he ▸ List.mem_cons_self _ _)
    by_cases hop : c = '('
    · subst hop
      by_cases h0 : s.state = 0
      · obtain ⟨st, k, res⟩ := s
        simp only at h0
        subst h0
        simp only [scanFrom, splitStep_open0]
        exact ih hc (i + 1) _ (by simp)
      · have hst : splitStep line i '(' s = .error () := by
          simp [splitStep, h0, hs]
        exact Or.inl (by simp [scanFrom, hst])
    · simp only [scanFrom, splitStep_other line i c s hop hcne]
      exact ih hc (i + 1) s hs

lemma split_p1_line_noClose (l : Str) (h : ')' ∉ l) : split_p1_line l = .error () := by
  unfold split_p1_line
  rcases scanFrom_noClose l l h 0 ⟨0, 0, []⟩ (by simp) with herr | ⟨s', hok, hs⟩
  · rw [herr]
  · rw [hok]
    simp [hs]

lemma split_p1_line_open_inside (p q : Str) (s' : ScanSt)
    (hscan : scanFrom (p ++ '(' :: q) 0 ⟨0, 0, []⟩ p = .ok s') (hs : s'.state = 1) :
    split_p1_line (p ++ '(' :: q) = .error () := by
  unfold split_p1_line
  rw [scanFrom_append, hscan]
  dsimp only
  obtain ⟨st, k, res⟩ := s'
  simp only at hs
  subst hs
  simp only [scanFrom, splitStep_open1]

lemma split_p1_line_close_outside (p q : Str) (s' : ScanSt)
    (hscan : scanFrom (p ++ ')' :: q) 0 ⟨0, 0, []⟩ p = .ok s') (hs : s'.state ≠ 1) :
    split_p1_line (p ++ ')' :: q) = .error () := by
  unfold split_p1_line
  rw [scanFrom_append, hscan]
  dsimp only
  simp only [scanFrom, splitStep_close_not1 _ _ s' hs]

/-- C2: a well-formed line `CODE(g1)(g2)...` splits into `[CODE, g1, g2, ...]`
in source order; a line with no closing parenthesis at all (in particular one
with no group, like `1-0:32.7.0`), a `(` read while inside a group, or a `)`
read while not inside a group is a `DecodeError`. -/
theorem split_p1_line_spec :
    (∀ (c : Str) (gs : List Str), parenFree c = true → gs ≠ [] →
      (∀ g ∈ gs, parenFree g = true) →
      split_p1_line (glineStr c gs) = .ok (c :: gs))
    ∧ (∀ l : Str, ')' ∉ l → split_p1_line l = .error ())
    ∧ (∀ (p q : Str) (s' : ScanSt),
        scanFrom (p ++ '(' :: q) 0 ⟨0, 0, []⟩ p = .ok s' → s'.state = 1 →
        split_p1_line (p ++ '(' :: q) = .error ())
    ∧ (∀ (p q : Str) (s' : ScanSt),
        scanFrom (p ++ ')' :: q) 0 ⟨0, 0, []⟩ p = .ok s' → s'.state ≠ 1 →
        split_p1_line (p ++ ')' :: q) = .error ()) :=
  ⟨split_p1_line_valid, split_p1_line_noClose,
    split_p1_line_open_inside, split_p1_line_close_outside⟩

/-- Witness for C2 at the spec's own examples. -/
theorem split_p1_line_spec_witness :
    split_p1_line "1-0:32.7.0(235.2*V)(40*A)(Test*T)".data =
      .ok ["1-0:32.7.0".data, "235.2*V".data, "40*A".data, "Test*T".data]
    ∧ split_p1_line "1-0:32.7.0".data = .error () := by
  constructor
  · have h := split_p1_line_spec.1 "1-0:32.7.0".data
      ["235.2*V".data, "40*A".data, "Test*T".data]
      (by decide) (by decide) (by decide)
    have heq : glineStr "1-0:32.7.0".data ["235.2*V".data, "40*A".data, "Test*T".data]
        = "1-0:32.7.0(235.2*V)(40*A)(Test*T)".data := by decide
    rw [heq] at h
    exact h
  · exact split_p1_line_spec.2.1 "1-0:32.7.0".data (by decide)

lemma scanFrom_lenInv (line : Str) : ∀ (cs : Str) (i : Nat) (s s' : ScanSt),
    scanFrom line i s cs = .ok s' →
    ((s.state = 1 → 1 ≤ s.result.length) ∧ (s.state = 2 → 2 ≤ s.result.length)) →
    ((s'.state = 1 → 1 ≤ s'.result.length) ∧ (s'.state = 2 → 2 ≤ s'.result.length)) := by
  intro cs
  induction cs with
  | nil =>
    intro i s s' h hi
    simp only [scanFrom] at h
    cases h
    exact hi
  | cons c cs ih =>
    intro i s s' h hi
    simp only [scanFrom] at h
    cases hstep : splitStep line i c s with
    | error e => rw [hstep] at h; cases h
    | ok s1 =>
      rw [hstep] at h
      refine ih (i + 1) s1 s' h ?_
      by_cases hop : c = '('
      · subst hop
        by_cases h0 : s.state = 0
        · rw [show splitStep line i '(' s = .ok ⟨1, i, s.result ++ [line.take i]⟩ from
            by simp [splitStep, h0]] at hstep
          cases hstep
          refine ⟨fun _ => ?_, fun hh => by simp at hh⟩
          simp only [List.length_append, List.length_cons, List.length_nil]
          omega
        · by_cases h2 : s.state = 2
          · rw [show splitStep line i '(' s = .ok ⟨1, i, s.result⟩ from
              by simp [splitStep, h0, h2]] at hstep
            cases hstep
            refine ⟨fun _ => ?_, fun hh => by simp at hh⟩
            have := hi.2 h2
            simp only
            omega
          · rw [show splitStep line i '(' s = .error () from
              by simp [splitStep, h0, h2]] at hstep
            cases hstep
      · by_cases hcl : c = ')'
        · subst hcl
          by_cases h1 : s.state = 1
          · rw [show splitStep line i ')' s
                = .ok ⟨2, s.k, s.result ++ [(line.drop (s.k + 1)).take (i - (s.k + 1))]⟩ from
              by simp [splitStep, h1]] at hstep
            cases hstep
            refine ⟨fun hh => by simp at hh, fun _ => ?_⟩
            have := hi.1 h1
            simp only [List.length_append, List.length_cons, List.length_nil]
            omega
          · rw [show splitStep line i ')' s = .error () from by simp [splitStep, h1]] at hstep
            cases hstep
        · rw [splitStep_other line i c s hop hcl] at hstep
          cases hstep
          exact hi

/-- C10: whenever `split_p1_line` succeeds, the returned list has at least
two elements (the code and a first group), so the dispatcher's accesses to
elements 0 and 1 are in bounds. -/
theorem split_p1_line_result_length (l : Str) (v : List Str)
    (h : split_p1_line l = .ok v) : 2 ≤ v.length := by
  unfold split_p1_line at h
  cases hscan : scanFrom l 0 ⟨0, 0, []⟩ l with
  | error e => rw [hscan] at h; cases h
  | ok s =>
    rw [hscan] at h
    have hinv := scanFrom_lenInv l l 0 ⟨0, 0, []⟩ s hscan (by simp)
    by_cases hs : s.state = 2
    · simp only [hs, ne_eq, not_true_eq_false, if_neg, ite_false] at h
      cases h
      exact hinv.2 hs
    · simp [hs] at h

/-- Witness for C10 at a concrete parsed line. -/
theorem split_p1_line_result_length_witness :
    2 ≤ (["1-0:32.7.0".data, "235.2*V".data, "40*A".data, "Test*T".data] : List Str).length :=
  split_p1_line_result_length "1-0:32.7.0(235.2*V)(40*A)(Test*T)".data _ (by rfl)

/-! ## CRC-16/ARC: bounds, injectivity, single-bit-flip sensitivity -/

lemma bitStep_lt (c : Nat) (h : c < 65536) : bitStep c < 65536 := by
  unfold bitStep
  split
  · have h1 : c / 2 < 2 ^ 16 := by omega
    have h2 : (0xA001 : Nat) < 2 ^ 16 := by norm_num
    have := Nat.xor_lt_two_pow h1 h2
    omega
  · omega

lemma bitStep_inj (a b : Nat) (ha : a < 65536) (hb : b < 65536)
    (h : bitStep a = bitStep b) : a = b := by
  unfold bitStep at h
  rcases Nat.mod_two_eq_zero_or_one a with ha2 | ha2 <;>
    rcases Nat.mod_two_eq_zero_or_one b with hb2 | hb2
  · rw [if_neg (by omega), if_neg (by omega)] at h
    omega
  · rw [if_neg (by omega), if_pos hb2] at h
    exfalso
    have h15 : (a / 2).testBit 15 = false :=
      Nat.testBit_lt_two_pow (show a / 2 < 2 ^ 15 by omega)
    have h15' : ((b / 2) ^^^ 0xA001).testBit 15 = true := by
      rw [Nat.testBit_xor,
        Nat.testBit_lt_two_pow (show b / 2 < 2 ^ 15 by omega)]
      decide
    rw [h, h15'] at h15
    cases h15
  · rw [if_pos ha2, if_neg (by omega)] at h
    exfalso
    have h15 : (b / 2).testBit 15 = false :=
      Nat.testBit_lt_two_pow (show b / 2 < 2 ^ 15 by omega)
    have h15' : ((a / 2) ^^^ 0xA001).testBit 15 = true := by
      rw [Nat.testBit_xor,
        Nat.testBit_lt_two_pow (show a / 2 < 2 ^ 15 by omega)]
      decide
    rw [← h, h15'] at h15
    cases h15
  · rw [if_pos ha2, if_pos hb2] at h
    have hd : a / 2 = b / 2 := by
      have := congrArg (· ^^^ (0xA001 : Nat)) h
      simpa using this
    omega

lemma bitSteps_lt (n : Nat) : ∀ (c : Nat), c < 65536 → bitSteps n c < 65536 := by
  induction n with
  | zero => intro c h; exact h
  | succ n ih => intro c h; exact ih _ (bitStep_lt c h)

lemma bitSteps_inj (n : Nat) : ∀ (a b : Nat), a < 65536 → b < 65536 →
    bitSteps n a = bitSteps n b → a = b := by
  induction n with
  | zero => intro a b _ _ h; exact h
  | succ n ih =>
    intro a b ha hb h
    exact bitStep_inj a b ha hb (ih _ _ (bitStep_lt a ha) (bitStep_lt b hb) h)

lemma crcRound_lt (c b : Nat) (hc : c < 65536) (hb : b < 256) : crcRound c b < 65536 := by
  unfold crcRound
  refine bitSteps_lt 8 _ ?_
  have h1 : c < 2 ^ 16 := by omega
  have h2 : b < 2 ^ 16 := by omega
  have := Nat.xor_lt_two_pow h1 h2
  omega

lemma crcRound_inj_state (c1 c2 b : Nat) (h1 : c1 < 65536) (h2 : c2 < 65536)
    (hb : b < 256) (h : crcRound c1 b = crcRound c2 b) : c1 = c2 := by
  unfold crcRound at h
  have hx1 : c1 ^^^ b < 65536 := by
    have := Nat.xor_lt_two_pow (show c1 < 2 ^ 16 by omega) (show b < 2 ^ 16 by omega)
    omega
  have hx2 : c2 ^^^ b < 65536 := by
    have := Nat.xor_lt_two_pow (show c2 < 2 ^ 16 by omega) (show b < 2 ^ 16 by omega)
    omega
  have := bitSteps_inj 8 _ _ hx1 hx2 h
  have := congrArg (· ^^^ b) this
  simpa using this

lemma crcRound_inj_byte (c b1 b2 : Nat) (hc : c < 65536) (h1 : b1 < 256)
    (h2 : b2 < 256) (hne : b1 ≠ b2) : crcRound c b1 ≠ crcRound c b2 := by
  intro h
  unfold crcRound at h
  have hx1 : c ^^^ b1 < 65536 := by
    have := Nat.xor_lt_two_pow (show c < 2 ^ 16 by omega) (show b1 < 2 ^ 16 by omega)
    omega
  have hx2 : c ^^^ b2 < 65536 := by
    have := Nat.xor_lt_two_pow (show c < 2 ^ 16 by omega) (show b2 < 2 ^ 16 by omega)
    omega
  have h' := bitSteps_inj 8 _ _ hx1 hx2 h
  have := congrArg (c ^^^ ·) h'
  simp only [← Nat.xor_assoc, Nat.xor_self, Nat.zero_xor] at this
  exact hne this

lemma crcFoldl_lt : ∀ (bs : List Nat), (∀ b ∈ bs, b < 256) →
    ∀ (s : Nat), s < 65536 → bs.foldl crcRound s < 65536 := by
  intro bs
  induction bs with
  | nil => intro _ s hs; exact hs
  | cons b bs ih =>
    intro hb s hs
    simp only [List.foldl_cons]
    exact ih (fun x hx => hb x (List.mem_cons_of_mem _ hx)) _
      (crcRound_lt s b hs (hb b (List.mem_cons_self _ _)))

lemma crcFoldl_ne : ∀ (bs : List Nat), (∀ b ∈ bs, b < 256) →
    ∀ (s1 s2 : Nat), s1 < 65536 → s2 < 65536 → s1 ≠ s2 →
    bs.foldl crcRound s1 ≠ bs.foldl crcRound s2 := by
  intro bs
  induction bs with
  | nil => intro _ s1 s2 _ _ hne; exact hne
  | cons b bs ih =>
    intro hb s1 s2 h1 h2 hne
    simp only [List.foldl_cons]
    have hbb := hb b (List.mem_cons_self _ _)
    refine ih (fun x hx => hb x (List.mem_cons_of_mem _ hx)) _ _
      (crcRound_lt s1 b h1 hbb) (crcRound_lt s2 b h2 hbb) ?_
    intro h
    exact hne (crcRound_inj_state s1 s2 b h1 h2 hbb h)

lemma crc16arc_flip_ne_aux : ∀ (bs : List Nat), (∀ b ∈ bs, b < 256) →
    ∀ (j t : Nat), j < bs.length → t < 8 →
    ∀ (s : Nat), s < 65536 →
    (bs.set j ((bs.getD j 0) ^^^ 2 ^ t)).foldl crcRound s ≠ bs.foldl crcRound s := by
  intro bs
  induction bs with
  | nil => intro _ j t hj; simp at hj
  | cons b bs ih =>
    intro hb j t hj ht s hs
    cases j with
    | zero =>
      simp only [List.set_cons_zero, List.getD_cons_zero, List.foldl_cons]
      have hbb := hb b (List.mem_cons_self _ _)
      have hflip : b ^^^ 2 ^ t < 256 := by
        have := Nat.xor_lt_two_pow (show b < 2 ^ 8 by omega)
          (show 2 ^ t < 2 ^ 8 from Nat.pow_lt_pow_right (by norm_num) ht)
        omega
      have hne : b ^^^ 2 ^ t ≠ b := by
        intro h
        have h0 : (2 : Nat) ^ t = 0 := by
          have := congrArg (fun x => b ^^^ x) h
          simp only [← Nat.xor_assoc, Nat.xor_self, Nat.zero_xor] at this
          exact this
        have : 0 < (2 : Nat) ^ t := pow_pos (by norm_num) t
        omega
      refine crcFoldl_ne bs (fun x hx => hb x (List.mem_cons_of_mem _ hx)) _ _
        (crcRound_lt s _ hs hflip) (crcRound_lt s b hs hbb) ?_
      exact crcRound_inj_byte s _ b hs hflip hbb hne
    | succ j =>
      simp only [List.set_cons_succ, List.getD_cons_succ, List.foldl_cons]
      exact ih (fun x hx => hb x (List.mem_cons_of_mem _ hx)) j t
        (by simpa using hj) ht _ (crcRound_lt s b hs (hb b (List.mem_cons_self _ _)))

/-! ## The checksum gate and framer -/

lemma getD_append_self (xs ys : List Nat) (d : Nat) :
    (xs ++ ys).getD xs.length d = ys.getD 0 d := by
  simp [List.getD_eq_getElem?_getD, List.getElem?_append_right (le_refl xs.length)]

lemma getD_append_lt (xs ys : List Nat) (j d : Nat) (hj : j < xs.length) :
    (xs ++ ys).getD j d = xs.getD j d := by
  simp [List.getD_eq_getElem?_getD, List.getElem?_append_left hj]

lemma flipBit_length (bs : List Nat) (j t : Nat) : (flipBit bs j t).length = bs.length := by
  simp [flipBit]

lemma flipBit_bytes (bs : List Nat) (j t : Nat) (h : ∀ b ∈ bs, b < 256) (ht : t < 8) :
    ∀ b ∈ flipBit bs j t, b < 256 := by
  intro b hb
  rcases List.mem_or_eq_of_mem_set hb with hmem | rfl
  · exact h b hmem
  · have h1 : bs.getD j 0 < 256 := by
      rcases Nat.lt_or_ge j bs.length with hj | hj
      · rw [List.getD_eq_getElem?_getD, List.getElem?_eq_getElem hj]
        exact h _ (List.getElem_mem hj)
      · rw [List.getD_eq_default bs 0 hj]
        norm_num
    have := Nat.xor_lt_two_pow (show bs.getD j 0 < 2 ^ 8 by omega)
      (show 2 ^ t < 2 ^ 8 from Nat.pow_lt_pow_right (by norm_num) ht)
    omega

lemma framerStep_end_eval (buf : List Nat) (m : Nat) (rest : List Nat) (h : Nat)
    (hhex : parseHexU16 (rest.take 4) = some h) (hlen : 4 ≤ rest.length) :
    framerStep ⟨.LookForEnd, buf, m⟩ (33 :: rest) =
      if h = crc16arc (buf ++ [33]) then
        (⟨.LookForStart, [], m⟩, some (((buf ++ 33 :: rest).drop m).take (buf.length - m)))
      else (⟨.LookForStart, [], m⟩, none) := by
  have hget : (buf ++ 33 :: rest).getD buf.length 0 = 33 := by
    rw [getD_append_self]; rfl
  have htake : (buf ++ 33 :: rest).take (buf.length + 1) = buf ++ [33] := by
    rw [show (33 :: rest) = [33] ++ rest from rfl, ← List.append_assoc,
      show buf.length + 1 = (buf ++ [33]).length by simp]
    exact List.take_left _ _
  have hdrop : ((buf ++ 33 :: rest).drop (buf.length + 1)).take 4 = rest.take 4 := by
    rw [← List.drop_drop, List.drop_left]
    simp
  have hlen5 : buf.length + 5 ≤ (buf ++ 33 :: rest).length := by
    simp only [List.length_append, List.length_cons]
    omega
  simp only [framerStep]
  rw [hget, if_pos rfl, if_pos hlen5, hdrop, hhex, htake]
  by_cases hc : h = crc16arc (buf ++ [33]) <;> simp [hc]

lemma framerStep_end_nobang (buf : List Nat) (m : Nat) (line : List Nat)
    (hne : line.getD 0 0 ≠ 33) :
    framerStep ⟨.LookForEnd, buf, m⟩ line = (⟨.LookForEnd, buf ++ line, m⟩, none) := by
  have hget : (buf ++ line).getD buf.length 0 = line.getD 0 0 := getD_append_self _ _ _
  simp only [framerStep]
  rw [hget, if_neg hne]

/-- C1: in the `LookForEnd` state, on an end-marker line whose following four
characters parse as the hex value `h`, the checksum gate accepts exactly when
`h` equals the CRC-16/ARC of the buffered bytes from the start marker through
and including the `!`; on mismatch the telegram is dropped (state reset,
buffer cleared, nothing dispatched); and when it would accept, flipping any
single bit of any byte of the checked range (the buffer or the `!` itself)
makes the gate dispatch nothing. -/
theorem checksum_gate_spec (buf : List Nat) (m : Nat) (rest : List Nat) (h : Nat)
    (hbytes : ∀ b ∈ buf, b < 256)
    (_hstart : buf.getD 0 0 = 47)
    (hhex : parseHexU16 (rest.take 4) = some h)
    (hlen : 4 ≤ rest.length) :
    ((framerStep ⟨.LookForEnd, buf, m⟩ (33 :: rest)).2.isSome = true
        ↔ h = crc16arc (buf ++ [33]))
    ∧ (h ≠ crc16arc (buf ++ [33]) →
        framerStep ⟨.LookForEnd, buf, m⟩ (33 :: rest) = (⟨.LookForStart, [], m⟩, none))
    ∧ (h = crc16arc (buf ++ [33]) →
        (∀ j t, j < buf.length → t < 8 →
          (framerStep ⟨.LookForEnd, flipBit buf j t, m⟩ (33 :: rest)).2 = none)
        ∧ (∀ t, t < 8 →
          (framerStep ⟨.LookForEnd, buf, m⟩ (flipBit (33 :: rest) 0 t)).2 = none)) := by
  refine ⟨?_, ?_, ?_⟩
  · rw [framerStep_end_eval buf m rest h hhex hlen]
    by_cases hc : h = crc16arc (buf ++ [33]) <;> simp [hc]
  · intro hc
    rw [framerStep_end_eval buf m rest h hhex hlen, if_neg hc]
  · intro hc
    constructor
    · intro j t hj ht
      rw [framerStep_end_eval (flipBit buf j t) m rest h hhex hlen]
      have hne : crc16arc (flipBit buf j t ++ [33]) ≠ crc16arc (buf ++ [33]) := by
        have hbytes' : ∀ b ∈ buf ++ [33], b < 256 := by
          intro b hb
          rcases List.mem_append.mp hb with hb | hb
          · exact hbytes b hb
          · simp at hb; omega
        have hj' : j < (buf ++ [33]).length := by simp; omega
        have hset : flipBit buf j t ++ [33] = flipBit (buf ++ [33]) j t := by
          unfold flipBit
          rw [List.set_append_left _ _ hj, getD_append_lt _ _ _ _ hj]
        rw [hset]
        exact crc16arc_flip_ne_aux (buf ++ [33]) hbytes' j t hj' ht 0 (by norm_num)
      rw [if_neg (by rw [hc]; exact fun he => hne he.symm)]
    · intro t ht
      have hne : (33 : Nat) ^^^ 2 ^ t ≠ 33 := by
        intro he
        have h0 : (2 : Nat) ^ t = 0 := by
          have := congrArg (fun x => (33 : Nat) ^^^ x) he
          simp only [← Nat.xor_assoc, Nat.xor_self, Nat.zero_xor] at this
          exact this
        have : 0 < (2 : Nat) ^ t := pow_pos (by norm_num) t
        omega
      have hflip : flipBit (33 :: rest) 0 t = (33 ^^^ 2 ^ t) :: rest := by
        simp [flipBit]
      rw [hflip, framerStep_end_nobang buf m _ (by simpa using hne)]

/-- Witness for C1 at a concrete accepted telegram (`/\n` then `!71f7\n`,
0x71f7 being the CRC-16/ARC of `/\n!`): the gate accepts, and flipping bit 0
of the `/` or bit 0 of the `!` makes it dispatch nothing. -/
theorem checksum_gate_spec_witness :
    (framerStep ⟨.LookForEnd, [47, 10], 2⟩ (33 :: [55, 49, 102, 55, 10])).2.isSome = true
    ∧ (framerStep ⟨.LookForEnd, flipBit [47, 10] 0 0, 2⟩ (33 :: [55, 49, 102, 55, 10])).2 = none
    ∧ (framerStep ⟨.LookForEnd, [47, 10], 2⟩ (flipBit (33 :: [55, 49, 102, 55, 10]) 0 0)).2 = none := by
  have h := checksum_gate_spec [47, 10] 2 [55, 49, 102, 55, 10] 29175
    (by decide) (by decide) (by decide) (by decide)
  exact ⟨h.1.mpr (by decide), (h.2.2 (by decide)).1 0 0 (by decide) (by decide),
    (h.2.2 (by decide)).2 0 (by decide)⟩

lemma framerStep_start (m : Nat) (l : List Nat) :
    framerStep ⟨.LookForStart, [], m⟩ l =
      if l.getD 0 0 = 47 then (⟨.LookForEnd, l, l.length⟩, none)
      else (⟨.LookForStart, [], m⟩, none) := by
  simp only [framerStep, List.nil_append]

lemma framerRun_middle (ls : List (List Nat)) : ∀ (buf : List Nat) (m : Nat)
    (lend : List Nat), (∀ l ∈ ls, l.getD 0 0 ≠ 33) →
    framerRun ⟨.LookForEnd, buf, m⟩ (ls ++ [lend]) =
      framerRun ⟨.LookForEnd, buf ++ ls.flatten, m⟩ [lend] := by
  induction ls with
  | nil => intro buf m lend _; simp
  | cons l ls ih =>
    intro buf m lend hmid
    simp only [List.cons_append, List.append_eq, framerRun,
      framerStep_end_nobang buf m l (hmid l (List.mem_cons_self _ _))]
    rw [ih (buf ++ l) m lend (fun x hx => hmid x (List.mem_cons_of_mem _ hx))]
    simp [framerRun, List.flatten_cons, List.append_assoc]

/-- C5 (amended): for a framed telegram read as a start-marker line, middle
lines and a matching end line, the body handed to the dispatcher is exactly
the concatenation of the middle lines — i.e. the bytes strictly between the
END of the start-marker line and the end marker.  The rest of the
start-marker line after `/` (including its line terminator) is NOT part of
the body, contrary to the claim's "strictly between the start marker `/`". -/
theorem framer_body_spec (l0 : List Nat) (ls : List (List Nat)) (rest : List Nat) (h : Nat)
    (h0 : l0.getD 0 0 = 47)
    (hmid : ∀ l ∈ ls, l.getD 0 0 ≠ 33)
    (hhex : parseHexU16 (rest.take 4) = some h) (hlen : 4 ≤ rest.length)
    (hcrc : h = crc16arc (l0 ++ ls.flatten ++ [33])) :
    framerRun ⟨.LookForStart, [], 0⟩ (l0 :: (ls ++ [33 :: rest])) =
      (⟨.LookForStart, [], l0.length⟩, [ls.flatten]) := by
  simp only [framerRun, framerStep_start, h0, if_pos]
  rw [framerRun_middle ls l0 l0.length (33 :: rest) hmid]
  simp only [framerRun]
  rw [framerStep_end_eval (l0 ++ ls.flatten) l0.length rest h hhex hlen]
  rw [if_pos (by rw [hcrc, List.append_assoc])]
  have hbody : (((l0 ++ ls.flatten) ++ 33 :: rest).drop l0.length).take
      ((l0 ++ ls.flatten).length - l0.length) = ls.flatten := by
    rw [List.append_assoc, List.drop_left]
    have hl : (l0 ++ ls.flatten).length - l0.length = ls.flatten.length := by
      simp
    rw [hl]
    exact List.take_left _ _
  rw [hbody]
  simp [framerRun]

/-- C5 counterexample: for the telegram read as lines `/A\n`, `B\n`,
`!e45e\n` (0xe45e is the CRC-16/ARC of `/A\nB\n!`), the full framed bytes are
`[47,65,10,66,10,33,...]`, whose bytes strictly between the `/` and the `!`
are `[65,10,66,10]`; but the body handed to the dispatcher is `[66,10]` — the
`A\n` tail of the start-marker line is dropped. -/
theorem framer_body_counterexample :
    (framerRun ⟨.LookForStart, [], 0⟩ [[47, 65, 10], [66, 10], [33, 101, 52, 53, 101, 10]]).2
      = [[66, 10]]
    ∧ ([66, 10] : List Nat) ≠ [65, 10, 66, 10] := by
  constructor
  · decide
  · decide

/-- Witness for C5's amended theorem at the same concrete telegram. -/
theorem framer_body_spec_witness :
    framerRun ⟨.LookForStart, [], 0⟩ [[47, 65, 10], [66, 10], [33, 101, 52, 53, 101, 10]] =
      (⟨.LookForStart, [], 3⟩, [[66, 10]]) :=
  framer_body_spec [47, 65, 10] [[66, 10]] [101, 52, 53, 101, 10] 58462
    (by decide) (by decide) (by decide) (by decide) (by decide)

/-- C6: in `LookForEnd`, when a line starts with `!` and the 4 following
characters are ABSENT, the framer discards the buffer and resets to
`LookForStart` (second conjunct); but when the 4 characters are present and
do NOT parse as hex (`!zzzz`), the code only logs and `continue`s: it keeps
the grown buffer and stays in `LookForEnd` (first conjunct), instead of
resetting as the claim describes. -/
theorem framer_badhex_behavior :
    framerRun ⟨.LookForStart, [], 0⟩ [[47, 10], [33, 122, 122, 122, 122, 10]]
      = (⟨.LookForEnd, [47, 10, 33, 122, 122, 122, 122, 10], 2⟩, [])
    ∧ framerRun ⟨.LookForStart, [], 0⟩ [[47, 10], [33, 122, 10]]
      = (⟨.LookForStart, [], 2⟩, []) := by
  constructor
  · decide
  · decide

/-! ## The telegram dispatcher: batching and sequence numbers -/

lemma processRun_cons (R : Registry) (seq : Nat) (now : Int) (t : Str)
    (ts : List (Int × Str)) :
    processRun R seq ((now, t) :: ts) =
      ((processRun (processP1Telegram R seq now t).1
          (processP1Telegram R seq now t).2.1 ts).1,
        (processRun (processP1Telegram R seq now t).1
          (processP1Telegram R seq now t).2.1 ts).2.1,
        (processP1Telegram R seq now t).2.2 ++
          (processRun (processP1Telegram R seq now t).1
            (processP1Telegram R seq now t).2.1 ts).2.2) := by
  rcases hp : processP1Telegram R seq now t with ⟨a, b, c⟩
  rcases hr : processRun a b ts with ⟨x, y, z⟩
  simp [processRun, hp, hr]

lemma valueSeqs_append (m1 m2 : List YgwMessage) :
    valueSeqs (m1 ++ m2) = valueSeqs m1 ++ valueSeqs m2 := by
  simp [valueSeqs]

lemma defsOf_append (m1 m2 : List YgwMessage) :
    defsOf (m1 ++ m2) = defsOf m1 ++ defsOf m2 := by
  simp [defsOf]

lemma processP1_seq (R : Registry) (seq : Nat) (now : Int) (t : Str) :
    valueSeqs (processP1Telegram R seq now t).2.2 =
      (if 0 < (processTelegram R t).pvalues.length then [seq] else [])
    ∧ (processP1Telegram R seq now t).2.1 =
      (if 0 < (processTelegram R t).pvalues.length then seq + 1 else seq) := by
  unfold processP1Telegram
  by_cases h1 : 0 < (processTelegram R t).pdefs.length <;>
    by_cases h2 : 0 < (processTelegram R t).pvalues.length <;>
      simp [valueSeqs, h1, h2]

lemma flatten_nil_mem {α : Type} (l : List (List α)) (h : l.flatten = [])
    (x : List α) (hx : x ∈ l) : x = [] := by
  induction l with
  | nil => cases hx
  | cons a as ih =>
    simp only [List.flatten_cons, List.append_eq_nil] at h
    rcases List.mem_cons.mp hx with rfl | hx'
    · exact h.1
    · exact ih h.2 hx'

lemma defsOf_processP1 (R : Registry) (seq : Nat) (now : Int) (t : Str) :
    defsOf (processP1Telegram R seq now t).2.2 = (processTelegram R t).pdefs := by
  unfold processP1Telegram
  by_cases h1 : 0 < (processTelegram R t).pdefs.length
  · by_cases h2 : 0 < (processTelegram R t).pvalues.length <;>
      simp [defsOf, defsPart, h1, h2]
  · have hnil : (processTelegram R t).pdefs = [] := by
      rw [← List.length_eq_zero]
      omega
    by_cases h2 : 0 < (processTelegram R t).pvalues.length <;>
      simp [defsOf, defsPart, h1, h2, hnil]

lemma processP1_registry (R : Registry) (seq : Nat) (now : Int) (t : Str) :
    (processP1Telegram R seq now t).1 = (processTelegram R t).reg := by
  unfold processP1Telegram
  simp

lemma processRun_seqs (ts : List (Int × Str)) : ∀ (R : Registry) (seq : Nat),
    valueSeqs (processRun R seq ts).2.2
      = List.range' seq (valueSeqs (processRun R seq ts).2.2).length
    ∧ (processRun R seq ts).2.1 = seq + (valueSeqs (processRun R seq ts).2.2).length := by
  induction ts with
  | nil => intro R seq; simp [processRun, valueSeqs]
  | cons p ts ih =>
    intro R seq
    obtain ⟨now, t⟩ := p
    rw [processRun_cons, valueSeqs_append]
    obtain ⟨h1, h2⟩ := processP1_seq R seq now t
    rw [h1, h2]
    by_cases hv : 0 < (processTelegram R t).pvalues.length
    · simp only [hv, if_pos]
      obtain ⟨ih1, ih2⟩ := ih (processP1Telegram R seq now t).1
        ((processP1Telegram R seq now t).2.1)
      rw [h2] at ih1 ih2
      simp only [hv, if_pos] at ih1 ih2
      constructor
      · rw [ih1]
        simp only [List.singleton_append, List.length_cons, List.length_range']
        rw [List.range'_succ]
      · rw [ih1]
        simp only [List.singleton_append, List.length_cons, List.length_range']
        omega
    · simp only [hv, if_neg, if_false]
      obtain ⟨ih1, ih2⟩ := ih (processP1Telegram R seq now t).1
        ((processP1Telegram R seq now t).2.1)
      rw [h2] at ih1 ih2
      simp only [hv, if_neg, if_false] at ih1 ih2
      simpa using ⟨ih1, ih2⟩

/-- C4: the `seq_num`s of the value batches of any run are the consecutive
values `seq, seq+1, ...` (in particular strictly increasing, each successive
value batch carrying the next counter value), and the final counter is the
initial one plus the number of value batches; a telegram with no decoded
values leaves the counter unchanged and emits no value batch; a telegram
with no new definitions emits no definition batch. -/
theorem seq_num_spec :
    (∀ (R : Registry) (seq : Nat) (ts : List (Int × Str)),
      valueSeqs (processRun R seq ts).2.2
        = List.range' seq (valueSeqs (processRun R seq ts).2.2).length
      ∧ (processRun R seq ts).2.1 = seq + (valueSeqs (processRun R seq ts).2.2).length)
    ∧ (∀ (R : Registry) (seq : Nat) (now : Int) (t : Str),
        (processTelegram R t).pvalues = [] →
        (processP1Telegram R seq now t).2.1 = seq
        ∧ valueSeqs (processP1Telegram R seq now t).2.2 = [])
    ∧ (∀ (R : Registry) (seq : Nat) (now : Int) (t : Str),
        (processTelegram R t).pdefs = [] →
        ∀ m ∈ (processP1Telegram R seq now t).2.2, defsPart m = []) := by
  refine ⟨fun R seq ts => processRun_seqs ts R seq, ?_, ?_⟩
  · intro R seq now t hv
    obtain ⟨h1, h2⟩ := processP1_seq R seq now t
    rw [hv] at h1 h2
    simp at h1 h2
    exact ⟨h2, h1⟩
  · intro R seq now t hd m hm
    have h := defsOf_processP1 R seq now t
    rw [hd] at h
    unfold defsOf at h
    exact flatten_nil_mem _ h _ (List.mem_map_of_mem defsPart hm)

/-- Witness for C4 at a concrete run: two telegrams with values get batches
numbered 5 and 6; an empty telegram leaves the counter at 5 and emits no
batch at all. -/
theorem seq_num_spec_witness :
    valueSeqs (processRun demoReg 5 [(100, demoTele), (200, demoTele)]).2.2
      = List.range' 5 (valueSeqs (processRun demoReg 5
          [(100, demoTele), (200, demoTele)]).2.2).length
    ∧ (processP1Telegram demoReg 5 100 []).2.1 = 5
    ∧ valueSeqs (processP1Telegram demoReg 5 100 []).2.2 = []
    ∧ ∀ m ∈ (processP1Telegram demoReg 5 100 []).2.2, defsPart m = [] :=
  ⟨(seq_num_spec.1 demoReg 5 [(100, demoTele), (200, demoTele)]).1,
    (seq_num_spec.2.1 demoReg 5 100 [] (by decide)).1,
    (seq_num_spec.2.1 demoReg 5 100 [] (by decide)).2,
    seq_num_spec.2.2 demoReg 5 100 [] (by decide)⟩

/-! ## The telegram dispatcher: definition bookkeeping -/

lemma lookup_mem (R : Registry) (c : Str) (p : DmsrParam)
    (h : List.lookup c R = some p) : (c, p) ∈ R := by
  induction R with
  | nil => simp [List.lookup] at h
  | cons e es ih =>
    obtain ⟨k, v⟩ := e
    by_cases hk : c = k
    · subst hk
      simp [List.lookup] at h
      subst h
      exact List.mem_cons_self _ _
    · have hb : (c == k) = false := beq_eq_false_iff_ne.mpr hk
      simp [List.lookup, hb] at h
      exact List.mem_cons_of_mem _ (ih h)

lemma setDefinedTrue_cons (e : Str × DmsrParam) (es : Registry) (c : Str) :
    setDefinedTrue (e :: es) c =
      (if e.1 = c then (e.1, ⟨e.2.description, e.2.name, e.2.ptype, true, e.2.pid⟩) else e)
        :: setDefinedTrue es c := by
  simp [setDefinedTrue]

lemma lookup_setDefinedTrue_self (R : Registry) (c : Str) :
    List.lookup c (setDefinedTrue R c) = (List.lookup c R).map fun p => setDef p true := by
  induction R with
  | nil => simp [setDefinedTrue, List.lookup]
  | cons e es ih =>
    obtain ⟨k, v⟩ := e
    rw [setDefinedTrue_cons]
    by_cases hk : k = c
    · subst hk
      rw [if_pos rfl]
      simp [List.lookup, setDef]
    · rw [if_neg hk]
      have hb : (c == k) = false := beq_eq_false_iff_ne.mpr (fun h => hk h.symm)
      simp only [List.lookup, hb]
      exact ih

lemma lookup_setDefinedTrue_other (R : Registry) (c c' : Str) (h : c ≠ c') :
    List.lookup c (setDefinedTrue R c') = List.lookup c R := by
  induction R with
  | nil => simp [setDefinedTrue, List.lookup]
  | cons e es ih =>
    obtain ⟨k, v⟩ := e
    rw [setDefinedTrue_cons]
    by_cases hk : k = c'
    · subst hk
      rw [if_pos rfl]
      have hb : (c == k) = false := beq_eq_false_iff_ne.mpr h
      simp only [List.lookup, hb]
      exact ih
    · rw [if_neg hk]
      by_cases hck : c = k
      · subst hck
        simp [List.lookup]
      · have hb : (c == k) = false := beq_eq_false_iff_ne.mpr hck
        simp only [List.lookup, hb]
        exact ih

lemma pidInjAt_setDefinedTrue (R : Registry) (c' c : Str) (pid : Nat)
    (h : pidInjAt R c pid) : pidInjAt (setDefinedTrue R c') c pid := by
  intro e he hp
  rcases List.mem_map.mp he with ⟨e0, he0, rfl⟩
  have hkey : ((if e0.1 = c' then
      (e0.1, (⟨e0.2.description, e0.2.name, e0.2.ptype, true, e0.2.pid⟩ : DmsrParam))
      else e0)).1 = e0.1 := by
    split <;> simp
  have hpid : ((if e0.1 = c' then
      (e0.1, (⟨e0.2.description, e0.2.name, e0.2.ptype, true, e0.2.pid⟩ : DmsrParam))
      else e0)).2.pid = e0.2.pid := by
    split <;> simp
  rw [hkey]
  rw [hpid] at hp
  exact h e0 he0 hp

lemma countPid_append (pid : Nat) (xs ys : List ParameterDefinition) :
    countPid pid (xs ++ ys) = countPid pid xs + countPid pid ys := by
  simp [countPid, List.filter_append]

lemma processLine_nil (acc : LineAcc) : processLine acc [] = acc := by
  simp [processLine]

lemma processLine_skip (acc : LineAcc) (l : Str) (hl : ¬ l = [])
    (he : split_p1_line l = .error ()) : processLine acc l = acc := by
  simp [processLine, hl, he]

lemma processLine_nocode (acc : LineAcc) (l : Str) (v : List Str) (hl : ¬ l = [])
    (hok : split_p1_line l = .ok v)
    (hn : List.lookup (v.getD 0 []) acc.reg = none) : processLine acc l = acc := by
  have hn' := hn
  rw [List.getD_eq_getElem?_getD] at hn' 
  simp [processLine, hl, hok, hn']

lemma processLine_ignore (acc : LineAcc) (l : Str) (v : List Str) (p : DmsrParam)
    (hl : ¬ l = []) (hok : split_p1_line l = .ok v)
    (hp : List.lookup (v.getD 0 []) acc.reg = some p)
    (hname : p.name = "ignore".data) : processLine acc l = acc := by
  have hp' := hp
  rw [List.getD_eq_getElem?_getD] at hp' 
  simp [processLine, hl, hok, hp', hname]

lemma processLine_hit (acc : LineAcc) (l : Str) (v : List Str) (p : DmsrParam)
    (hl : ¬ l = []) (hok : split_p1_line l = .ok v)
    (hp : List.lookup (v.getD 0 []) acc.reg = some p)
    (hname : p.name ≠ "ignore".data) :
    (processLine acc l).reg
      = (if p.defined then acc.reg else setDefinedTrue acc.reg (v.getD 0 []))
    ∧ (processLine acc l).pdefs
      = (if p.defined then acc.pdefs
         else acc.pdefs ++ [get_pdef p ((splitOnChar '*' (v.getD 1 []))[1]?)]) := by
  have hp' := hp
  rw [List.getD_eq_getElem?_getD] at hp'
  by_cases ht : p.name = "timestamp".data <;>
    simp [processLine, hl, hok, hp', hname, ht, get_pvalue]

lemma setDef_setDef (q : DmsrParam) (a b : Bool) : setDef (setDef q a) b = setDef q b := by
  simp [setDef]

lemma setDef_defined (q : DmsrParam) (a : Bool) : (setDef q a).defined = a := rfl

lemma setDef_name (q : DmsrParam) (a : Bool) : (setDef q a).name = q.name := rfl

lemma setDef_pid (q : DmsrParam) (a : Bool) : (setDef q a).pid = q.pid := rfl

lemma countPid_singleton (pid : Nat) (d : ParameterDefinition) :
    countPid pid [d] = if d.id = pid then 1 else 0 := by
  by_cases h : d.id = pid <;> simp [countPid, h]

lemma foldl_processLine_track (c : Str) (q : DmsrParam) :
    ∀ (lines : List Str) (acc : LineAcc) (d0 : Bool),
    List.lookup c acc.reg = some (setDef q d0) →
    pidInjAt acc.reg c q.pid →
    pidInjAt (lines.foldl processLine acc).reg c q.pid
    ∧ List.lookup c (lines.foldl processLine acc).reg
        = some (setDef q (d0 || (!(q.name == "ignore".data) && lines.any (refsCodeB c))))
    ∧ countPid q.pid (lines.foldl processLine acc).pdefs
        = countPid q.pid acc.pdefs
          + (if d0 then 0
             else if (!(q.name == "ignore".data) && lines.any (refsCodeB c)) = true
               then 1 else 0) := by
  intro lines
  induction lines with
  | nil =>
    intro acc d0 hl hinj
    refine ⟨hinj, ?_, ?_⟩
    · simpa using hl
    · cases d0 <;> simp
  | cons l ls ih =>
    intro acc d0 hl hinj
    simp only [List.foldl_cons, List.any_cons]
    by_cases hle : l = []
    · subst hle
      rw [processLine_nil]
      have hres := ih acc d0 hl hinj
      have hrf : refsCodeB c [] = false := by simp [refsCodeB]
      simpa [hrf] using hres
    · cases hsplit : split_p1_line l with
      | error e =>
        cases e
        rw [processLine_skip acc l hle hsplit]
        have hres := ih acc d0 hl hinj
        have hrf : refsCodeB c l = false := by simp [refsCodeB, hsplit]
        simpa [hrf] using hres
      | ok v =>
        by_cases hcode : v.getD 0 [] = c
        · have hcode' : v[0]?.getD [] = c := by
            rw [← List.getD_eq_getElem?_getD]; exact hcode
          have hrf : refsCodeB c l = true := by
            simp [refsCodeB, hle, hsplit, hcode, hcode']
          have hlook : List.lookup (v.getD 0 []) acc.reg = some (setDef q d0) := by
            rw [hcode]; exact hl
          by_cases hig : q.name = "ignore".data
          · rw [processLine_ignore acc l v (setDef q d0) hle hsplit hlook
              (by rw [setDef_name, hig])]
            have hres := ih acc d0 hl hinj
            simpa [hig] using hres
          · have hname : (setDef q d0).name ≠ "ignore".data := by
              rw [setDef_name]; exact hig
            obtain ⟨hreg, hpdefs⟩ := processLine_hit acc l v (setDef q d0) hle hsplit hlook hname
            rw [setDef_defined] at hreg hpdefs
            rw [hcode] at hreg
            by_cases hd0 : d0 = true
            · subst hd0
              rw [if_pos rfl] at hreg hpdefs
              have hl' : List.lookup c (processLine acc l).reg = some (setDef q true) := by
                rw [hreg]; exact hl
              have hinj' : pidInjAt (processLine acc l).reg c q.pid := by
                rw [hreg]; exact hinj
              obtain ⟨r1, r2, r3⟩ := ih (processLine acc l) true hl' hinj'
              refine ⟨r1, by simpa using r2, ?_⟩
              rw [r3, hpdefs]
              simp
            · have hd0' : d0 = false := by
                cases d0
                · rfl
                · exact absurd rfl hd0
              subst hd0'
              rw [if_neg (by simp)] at hreg hpdefs
              have hl' : List.lookup c (processLine acc l).reg = some (setDef q true) := by
                rw [hreg, lookup_setDefinedTrue_self, hl]
                simp [setDef_setDef]
              have hinj' : pidInjAt (processLine acc l).reg c q.pid := by
                rw [hreg]
                exact pidInjAt_setDefinedTrue _ _ _ _ hinj
              obtain ⟨r1, r2, r3⟩ := ih (processLine acc l) true hl' hinj'
              have hbig : (q.name == "ignore".data) = false := beq_eq_false_iff_ne.mpr hig
              refine ⟨r1, ?_, ?_⟩
              · rw [r2]
                simp [hbig, hrf]
              · rw [r3, hpdefs, countPid_append, countPid_singleton]
                have hid : (get_pdef (setDef q false)
                    ((splitOnChar '*' (v.getD 1 []))[1]?)).id = q.pid := rfl
                rw [hid, if_pos rfl]
                simp [hbig, hrf]
        · have hcode' : ¬ v[0]?.getD [] = c := by
            rw [← List.getD_eq_getElem?_getD]; exact hcode
          have hrf : refsCodeB c l = false := by
            simp [refsCodeB, hsplit, hcode, hcode']
          have hne : c ≠ v.getD 0 [] := fun h => hcode h.symm
          cases hlk : List.lookup (v.getD 0 []) acc.reg with
          | none =>
            rw [processLine_nocode acc l v hle hsplit hlk]
            have hres := ih acc d0 hl hinj
            simpa [hrf] using hres
          | some p =>
            by_cases hpn : p.name = "ignore".data
            · rw [processLine_ignore acc l v p hle hsplit hlk hpn]
              have hres := ih acc d0 hl hinj
              simpa [hrf] using hres
            · obtain ⟨hreg, hpdefs⟩ := processLine_hit acc l v p hle hsplit hlk hpn
              have hpid : p.pid ≠ q.pid := by
                intro hp
                exact hcode (hinj (v.getD 0 [], p) (lookup_mem _ _ _ hlk) hp)
              have hl' : List.lookup c (processLine acc l).reg = some (setDef q d0) := by
                rw [hreg]
                by_cases hdef : p.defined = true
                · rw [if_pos hdef]
                  exact hl
                · rw [if_neg hdef, lookup_setDefinedTrue_other _ _ _ hne]
                  exact hl
              have hinj' : pidInjAt (processLine acc l).reg c q.pid := by
                rw [hreg]
                by_cases hdef : p.defined = true
                · rw [if_pos hdef]
                  exact hinj
                · rw [if_neg hdef]
                  exact pidInjAt_setDefinedTrue _ _ _ _ hinj
              have hcount : countPid q.pid (processLine acc l).pdefs
                  = countPid q.pid acc.pdefs := by
                rw [hpdefs]
                by_cases hdef : p.defined = true
                · rw [if_pos hdef]
                · rw [if_neg hdef, countPid_append, countPid_singleton]
                  have hgid : (get_pdef p ((splitOnChar '*' (v.getD 1 []))[1]?)).id = p.pid := rfl
                  rw [hgid, if_neg hpid]
                  omega
              obtain ⟨r1, r2, r3⟩ := ih (processLine acc l) d0 hl' hinj'
              refine ⟨r1, ?_, ?_⟩
              · rw [r2]
                simp [hrf]
              · rw [r3, hcount]
                simp [hrf]

lemma foldl_processLine_lookup_true (c : Str) (q : DmsrParam) (hq : q.defined = true) :
    ∀ (lines : List Str) (acc : LineAcc),
    List.lookup c acc.reg = some q →
    List.lookup c (lines.foldl processLine acc).reg = some q := by
  intro lines
  induction lines with
  | nil => intro acc hl; exact hl
  | cons l ls ih =>
    intro acc hl
    simp only [List.foldl_cons]
    refine ih (processLine acc l) ?_
    by_cases hle : l = []
    · subst hle
      rw [processLine_nil]
      exact hl
    · cases hsplit : split_p1_line l with
      | error e =>
        cases e
        rw [processLine_skip acc l hle hsplit]
        exact hl
      | ok v =>
        cases hlk : List.lookup (v.getD 0 []) acc.reg with
        | none =>
          rw [processLine_nocode acc l v hle hsplit hlk]
          exact hl
        | some p =>
          by_cases hpn : p.name = "ignore".data
          · rw [processLine_ignore acc l v p hle hsplit hlk hpn]
            exact hl
          · obtain ⟨hreg, _⟩ := processLine_hit acc l v p hle hsplit hlk hpn
            rw [hreg]
            by_cases hcode : v.getD 0 [] = c
            · rw [hcode] at hlk
              rw [hlk] at hl
              cases hl
              rw [if_pos hq]
              exact hlk
            · by_cases hdef : p.defined = true
              · rw [if_pos hdef]
                exact hl
              · rw [if_neg hdef,
                  lookup_setDefinedTrue_other _ _ _ (fun h => hcode h.symm)]
                exact hl

lemma runRefs_cons (c : Str) (now : Int) (t : Str) (ts : List (Int × Str)) :
    runRefs c ((now, t) :: ts) = (teleRefs c t || runRefs c ts) := by
  simp [runRefs, List.any_cons]

lemma processRun_track (ts : List (Int × Str)) : ∀ (R : Registry) (seq : Nat)
    (c : Str) (q : DmsrParam) (d0 : Bool),
    List.lookup c R = some (setDef q d0) →
    pidInjAt R c q.pid →
    pidInjAt (processRun R seq ts).1 c q.pid
    ∧ List.lookup c (processRun R seq ts).1
        = some (setDef q (d0 || (!(q.name == "ignore".data) && runRefs c ts)))
    ∧ countPid q.pid (defsOf (processRun R seq ts).2.2)
        = (if d0 then 0
           else if (!(q.name == "ignore".data) && runRefs c ts) = true then 1 else 0) := by
  induction ts with
  | nil =>
    intro R seq c q d0 hl hinj
    refine ⟨hinj, ?_, ?_⟩
    · simp only [processRun]
      simpa [runRefs] using hl
    · simp only [processRun, defsOf]
      cases d0 <;> simp [countPid, runRefs]
  | cons pair ts ih =>
    obtain ⟨now, t⟩ := pair
    intro R seq c q d0 hl hinj
    rw [processRun_cons]
    obtain ⟨i1, l1, c1⟩ :=
      foldl_processLine_track c q (rustLines t) ⟨R, [], [], none⟩ d0 hl hinj
    have hreg1 : (processP1Telegram R seq now t).1
        = ((rustLines t).foldl processLine ⟨R, [], [], none⟩).reg := by
      rw [processP1_registry]
      rfl
    obtain ⟨i2, l2, c2⟩ := ih (processP1Telegram R seq now t).1
      (processP1Telegram R seq now t).2.1 c q
      (d0 || (!(q.name == "ignore".data) && teleRefs c t))
      (by rw [hreg1]; exact l1) (by rw [hreg1]; exact i1)
    refine ⟨i2, ?_, ?_⟩
    · rw [l2, runRefs_cons]
      congr 1
      congr 1
      cases d0 <;> cases hE : !(q.name == "ignore".data) <;>
        cases hT : teleRefs c t <;> cases hR : runRefs c ts <;> simp [teleRefs]
    · rw [defsOf_append, countPid_append, c2]
      have hc1' : countPid q.pid (defsOf (processP1Telegram R seq now t).2.2)
          = (if d0 then 0
             else if (!(q.name == "ignore".data) && teleRefs c t) = true then 1 else 0) := by
        rw [defsOf_processP1]
        have : (processTelegram R t).pdefs
            = ((rustLines t).foldl processLine ⟨R, [], [], none⟩).pdefs := rfl
        rw [this, c1]
        simp [countPid, teleRefs]
      rw [hc1', runRefs_cons]
      cases d0 <;> cases hE : !(q.name == "ignore".data) <;>
        cases hT : teleRefs c t <;> cases hR : runRefs c ts <;> simp [teleRefs]

/-- C3: from a registry in which code `c` is mapped to a spec with
`defined = false` and whose numeric id identifies `c`, across an arbitrary
run of telegrams at most one `ParameterDefinition` with that id is emitted —
exactly one when some telegram references `c` by a parseable non-ignore
group line; the final `defined` flag records exactly whether such a
reference occurred (monotone false→true); and once an entry's flag is true
it is never changed by further processing. -/
theorem definition_once_spec (R : Registry) (seq : Nat) (ts : List (Int × Str))
    (c : Str) (p : DmsrParam)
    (hl : List.lookup c R = some p) (hd : p.defined = false)
    (hinj : pidInjAt R c p.pid) :
    countPid p.pid (defsOf (processRun R seq ts).2.2) ≤ 1
    ∧ (p.name ≠ "ignore".data → runRefs c ts = true →
        countPid p.pid (defsOf (processRun R seq ts).2.2) = 1)
    ∧ List.lookup c (processRun R seq ts).1
        = some (setDef p (!(p.name == "ignore".data) && runRefs c ts))
    ∧ (∀ (R' : Registry) (t : Str) (q : DmsrParam),
        List.lookup c R' = some q → q.defined = true →
        List.lookup c (processTelegram R' t).reg = some q) := by
  have hsp : setDef p false = p := by
    obtain ⟨pd, pn, pt, pdef, ppid⟩ := p
    simp only at hd
    subst hd
    rfl
  obtain ⟨_, l2, c2⟩ := processRun_track ts R seq c p false (by rw [hsp]; exact hl) hinj
  refine ⟨?_, ?_, ?_, ?_⟩
  · rw [c2]
    split
    · omega
    · split <;> omega
  · intro hn hr
    rw [c2]
    have hbig : (p.name == "ignore".data) = false := beq_eq_false_iff_ne.mpr hn
    simp [hbig, hr]
  · rw [l2]
    simp
  · intro R' t q hq hqd
    exact foldl_processLine_lookup_true c q hqd (rustLines t) ⟨R', [], [], none⟩ hq

/-- Witness for C3: in a two-telegram run over the demo registry, the
`voltage` definition (id 0) is emitted exactly once although both telegrams
reference its code. -/
theorem definition_once_spec_witness :
    countPid 0 (defsOf (processRun demoReg 0 [(100, demoTele), (200, demoTele)]).2.2) = 1 :=
  (definition_once_spec demoReg 0 [(100, demoTele), (200, demoTele)] "V".data
      ⟨"volts".data, "voltage".data, .Float, false, 0⟩
      (by decide) (by decide) (by unfold pidInjAt; decide)).2.1 (by decide) (by decide)

/-! ## When `defined` flips (claim C7) -/

lemma foldl_processLine_noref (c : Str) : ∀ (lines : List Str) (acc : LineAcc)
    (q : DmsrParam), List.lookup c acc.reg = some q →
    lines.any (refsCodeB c) = false →
    List.lookup c (lines.foldl processLine acc).reg = some q := by
  intro lines
  induction lines with
  | nil => intro acc q hl _; exact hl
  | cons l ls ih =>
    intro acc q hl hany
    rw [List.any_cons, Bool.or_eq_false_iff] at hany
    obtain ⟨h1, h2⟩ := hany
    simp only [List.foldl_cons]
    refine ih (processLine acc l) q ?_ h2
    by_cases hle : l = []
    · subst hle
      rw [processLine_nil]
      exact hl
    · cases hsplit : split_p1_line l with
      | error e =>
        cases e
        rw [processLine_skip acc l hle hsplit]
        exact hl
      | ok v =>
        have hcode : ¬ v.getD 0 [] = c := by
          intro hc
          have : refsCodeB c l = true := by
            have hc' : v[0]?.getD [] = c := by
              rw [← List.getD_eq_getElem?_getD]; exact hc
            simp [refsCodeB, hle, hsplit, hc']
          rw [this] at h1
          cases h1
        cases hlk : List.lookup (v.getD 0 []) acc.reg with
        | none =>
          rw [processLine_nocode acc l v hle hsplit hlk]
          exact hl
        | some p =>
          by_cases hpn : p.name = "ignore".data
          · rw [processLine_ignore acc l v p hle hsplit hlk hpn]
            exact hl
          · obtain ⟨hreg, _⟩ := processLine_hit acc l v p hle hsplit hlk hpn
            rw [hreg]
            by_cases hdef : p.defined = true
            · rw [if_pos hdef]
              exact hl
            · rw [if_neg hdef,
                lookup_setDefinedTrue_other _ _ _ (fun h => hcode h.symm)]
              exact hl

/-- C7 (amended): the `defined` flag of a spec flips to true (and its
ParameterDefinition is emitted) at the first line that parses as a group
line referencing its code and whose spec is not `ignore` — regardless of
whether the line carries a decodable value: timestamp lines and lines whose
value fails type coercion DO mark the spec defined and emit its definition.
A telegram containing no parseable reference to the code leaves the entry
untouched. -/
theorem defined_flip_spec :
    (∀ (R : Registry) (l : Str) (c : Str) (p : DmsrParam) (g : Option Int),
      List.lookup c R = some p → p.defined = false → p.name ≠ "ignore".data →
      refsCodeB c l = true →
      ∃ v, split_p1_line l = .ok v ∧ v.getD 0 [] = c
        ∧ (processLine ⟨R, [], [], g⟩ l).pdefs
            = [get_pdef p ((splitOnChar '*' (v.getD 1 []))[1]?)]
        ∧ List.lookup c (processLine ⟨R, [], [], g⟩ l).reg = some (setDef p true))
    ∧ (∀ (R : Registry) (t : Str) (c : Str) (q : DmsrParam),
        List.lookup c R = some q → teleRefs c t = false →
        List.lookup c (processTelegram R t).reg = some q) := by
  constructor
  · intro R l c p g hl hd hn hr
    have hle : ¬ l = [] := by
      intro h
      subst h
      simp [refsCodeB] at hr
    cases hsplit : split_p1_line l with
    | error e =>
      exfalso
      rw [refsCodeB, hsplit] at hr
      simp at hr
    | ok v =>
      have hcode : v.getD 0 [] = c := by
        rw [refsCodeB, hsplit] at hr
        simp only [Bool.and_eq_true, beq_iff_eq] at hr
        exact hr.2
      have hlk : List.lookup (v.getD 0 []) (⟨R, [], [], g⟩ : LineAcc).reg = some p := by
        rw [hcode]
        exact hl
      obtain ⟨hreg, hpdefs⟩ := processLine_hit ⟨R, [], [], g⟩ l v p hle hsplit hlk hn
      rw [hd] at hreg hpdefs
      simp only [Bool.false_eq_true, if_false] at hreg hpdefs
      refine ⟨v, rfl, hcode, by simpa using hpdefs, ?_⟩
      rw [hreg, hcode, lookup_setDefinedTrue_self, hl]
      rfl
  · intro R t c q hl hrefs
    exact foldl_processLine_noref c (rustLines t) ⟨R, [], [], none⟩ q hl hrefs

/-- C7 counterexample: a telegram whose only line is a timestamp reference
(`T(240506201011S)`, value never decoded into a ParameterValueRecord) DOES
mark the spec defined and DOES emit its ParameterDefinition, contradicting
the claim that this happens only when a value is successfully decoded. -/
theorem defined_flip_counterexample :
    (processTelegram [("T".data, ⟨"time".data, "timestamp".data, .String, false, 1⟩)]
        "T(240506201011S)".data).pvalues = []
    ∧ (processTelegram [("T".data, ⟨"time".data, "timestamp".data, .String, false, 1⟩)]
        "T(240506201011S)".data).pdefs.length = 1
    ∧ List.lookup "T".data (processTelegram [("T".data,
        ⟨"time".data, "timestamp".data, .String, false, 1⟩)]
        "T(240506201011S)".data).reg
      = some ⟨"time".data, "timestamp".data, .String, true, 1⟩ := by
  refine ⟨by decide, by decide, by decide⟩

/-- Witness for C7's amended theorem at a concrete timestamp line. -/
theorem defined_flip_spec_witness :
    List.lookup "T".data (processLine ⟨[("T".data,
        ⟨"time".data, "timestamp".data, .String, false, 1⟩)], [], [], none⟩
        "T(240506201011S)".data).reg
      = some (setDef ⟨"time".data, "timestamp".data, .String, false, 1⟩ true)
    ∧ List.lookup "X".data (processTelegram [("X".data,
        ⟨"d".data, "volt".data, .Float, false, 0⟩)] "Y(1)".data).reg
      = some ⟨"d".data, "volt".data, .Float, false, 0⟩ := by
  constructor
  · obtain ⟨v, _, _, _, hlook⟩ := defined_flip_spec.1
      [("T".data, ⟨"time".data, "timestamp".data, .String, false, 1⟩)]
      "T(240506201011S)".data "T".data
      ⟨"time".data, "timestamp".data, .String, false, 1⟩ none
      (by decide) (by decide) (by decide) (by decide)
    exact hlook
  · exact defined_flip_spec.2
      [("X".data, ⟨"d".data, "volt".data, .Float, false, 0⟩)]
      "Y(1)".data "X".data ⟨"d".data, "volt".data, .Float, false, 0⟩
      (by decide) (by decide)

/-! ## Timestamp decoding and generation-time fallback (claim C8) -/

/-- C8: `get_timestamp` strips one optional trailing `S`, parses the
remainder with the fixed layout `YYMMDDhhmmss`, and converts it to an
absolute UTC instant — the spec's example `240506201011S` (with or without
the DST flag) yields 2024-05-06T20:10:11.000Z, i.e. Unix milliseconds
1715026211000, while a remainder that does not match the layout (e.g. a
second trailing `S`) yields none; and when a telegram's processing ends with
no timestamp, its value batch carries the receipt time as generation time. -/
theorem get_timestamp_spec :
    get_timestamp "240506201011S".data = some 1715026211000
    ∧ get_timestamp "240506201011".data = some 1715026211000
    ∧ get_timestamp "240506201011SS".data = none
    ∧ (∀ s : Str,
        parseYMDHMS (if s.getLast? = some 'S' then s.dropLast else s) = none →
        get_timestamp s = none)
    ∧ (∀ (R : Registry) (seq : Nat) (now : Int) (t : Str),
        (processTelegram R t).gentime = none →
        ∀ d, YgwMessage.parameterData d ∈ (processP1Telegram R seq now t).2.2 →
          d.generation_time = some now) := by
  refine ⟨by decide, by decide, by decide, ?_, ?_⟩
  · intro s h
    simp [get_timestamp, h]
  · intro R seq now t hg d hd
    simp only [processP1Telegram] at hd
    rw [hg] at hd
    simp only [Option.none_or] at hd
    by_cases h1 : 0 < (processTelegram R t).pdefs.length <;>
      by_cases h2 : 0 < (processTelegram R t).pvalues.length <;>
        simp only [h1, h2, if_true, if_false, List.mem_append, List.mem_singleton,
          List.not_mem_nil, or_false, false_or, if_pos, if_neg, not_false_iff] at hd
    any_goals rcases hd with hd | hd
    all_goals
      first
      | rfl
      | (injection hd with hd
         rw [hd])
      | injection hd

/-- Witness for C8: a non-matching remainder yields no instant, and in a
telegram without a timestamp the emitted batch carries the receipt time. -/
theorem get_timestamp_spec_witness :
    get_timestamp "abc".data = none
    ∧ (⟨[⟨0, some (.sint64Value 7)⟩], 0, some 5, some 5⟩ : ParameterData).generation_time
        = some 5 :=
  ⟨get_timestamp_spec.2.2.2.1 "abc".data (by decide),
   get_timestamp_spec.2.2.2.2 [("N".data, ⟨"d".data, "amps".data, .Integer, false, 0⟩)] 0 5
     "N(7)".data (by decide) _ (by decide)⟩

/-! ## Registry loading (claim C9) -/

lemma lookup_insertA (m : Registry) (k : Str) (v : DmsrParam) (c : Str) :
    List.lookup c (insertA m k v) = if c = k then some v else List.lookup c m := by
  induction m with
  | nil =>
    by_cases h : c = k
    · subst h
      simp [insertA, List.lookup]
    · have hb : (c == k) = false := beq_eq_false_iff_ne.mpr h
      simp [insertA, List.lookup, hb, h]
  | cons e es ih =>
    obtain ⟨k0, v0⟩ := e
    by_cases h0 : k0 = k
    · subst h0
      rw [show insertA ((k0, v0) :: es) k0 v = (k0, v) :: es from by simp [insertA]]
      by_cases h : c = k0
      · subst h
        simp [List.lookup]
      · have hb : (c == k0) = false := beq_eq_false_iff_ne.mpr h
        simp [List.lookup, hb, h]
    · rw [show insertA ((k0, v0) :: es) k v = (k0, v0) :: insertA es k v from
        by simp [insertA, h0]]
      by_cases h : c = k0
      · subst h
        simp [List.lookup, h0]
      · have hb : (c == k0) = false := beq_eq_false_iff_ne.mpr h
        simp only [List.lookup, hb]
        exact ih

lemma validRecs_cons_skip (l : Str) (ls : List Str) (h : skipLine l = true) :
    validRecs (l :: ls) = validRecs ls := by
  simp [validRecs, h]

lemma validRecs_cons_rec (l : Str) (ls : List Str) (h : skipLine l = false) :
    validRecs (l :: ls) = splitOnChar ',' l :: validRecs ls := by
  simp [validRecs, h]

lemma skipLine_iff (l : Str) : skipLine l = true ↔ (l = [] ∨ l.getD 0 ' ' = '#') := by
  simp [skipLine]

lemma read_codesAux_ok_iff (ls : List Str) : ∀ (m : Registry) (pid : Nat),
    (∃ m', read_codesAux m pid ls = .ok m') ↔
      ∀ l ∈ ls, ¬(l = [] ∨ l.getD 0 ' ' = '#') →
        ((splitOnChar ',' l).length = 4
          ∧ kindOk ((splitOnChar ',' l).getD 2 []) = true) := by
  induction ls with
  | nil =>
    intro m pid
    constructor
    · intro _ l hl; cases hl
    · intro _; exact ⟨m, rfl⟩
  | cons l ls ih =>
    intro m pid
    by_cases hskip : l = [] ∨ l.getD 0 ' ' = '#'
    · rw [show read_codesAux m pid (l :: ls) = read_codesAux m pid ls from
        by rw [read_codesAux, if_pos hskip]]
      rw [ih m pid]
      constructor
      · intro h l' hl' hns
        rcases List.mem_cons.mp hl' with rfl | hl'
        · exact absurd hskip hns
        · exact h l' hl' hns
      · intro h l' hl' hns
        exact h l' (List.mem_cons_of_mem _ hl') hns
    · by_cases hlen : (splitOnChar ',' l).length = 4
      · cases hkind : DmsrParamType.from_str ((splitOnChar ',' l).getD 2 []) with
        | error e =>
          cases e
          rw [show read_codesAux m pid (l :: ls) = .error () from by
            rw [read_codesAux, if_neg hskip]
            simp only [hlen, if_pos, if_true]
            rw [hkind]]
          constructor
          · intro ⟨m', hm'⟩; cases hm'
          · intro h
            exfalso
            have := (h l (List.mem_cons_self _ _) hskip).2
            rw [kindOk, hkind] at this
            cases this
        | ok pt =>
          rw [show read_codesAux m pid (l :: ls)
              = read_codesAux (insertA m ((splitOnChar ',' l).getD 0 [])
                ⟨(splitOnChar ',' l).getD 3 [], (splitOnChar ',' l).getD 1 [], pt,
                  false, pid⟩) (pid + 1) ls from by
            rw [read_codesAux, if_neg hskip]
            simp only [hlen, if_pos, if_true]
            rw [hkind]]
          rw [ih]
          constructor
          · intro h l' hl' hns
            rcases List.mem_cons.mp hl' with rfl | hl'
            · refine ⟨hlen, ?_⟩
              rw [kindOk, hkind]
            · exact h l' hl' hns
          · intro h l' hl' hns
            exact h l' (List.mem_cons_of_mem _ hl') hns
      · rw [show read_codesAux m pid (l :: ls) = .error () from by
          rw [read_codesAux, if_neg hskip]
          simp only [hlen, if_neg, if_false]]
        constructor
        · intro ⟨m', hm'⟩; cases hm'
        · intro h
          exact absurd (h l (List.mem_cons_self _ _) hskip).1 hlen

lemma read_codesAux_lookup (ls : List Str) : ∀ (m : Registry) (pid : Nat)
    (m' : Registry) (c : Str), read_codesAux m pid ls = .ok m' →
    List.lookup c m' =
      (match lastRecFor c pid (validRecs ls) with
       | some x => recParam x.2 x.1
       | none => List.lookup c m) := by
  induction ls with
  | nil =>
    intro m pid m' c h
    simp only [read_codesAux] at h
    cases h
    simp [validRecs, lastRecFor]
  | cons l ls ih =>
    intro m pid m' c h
    by_cases hskip : l = [] ∨ l.getD 0 ' ' = '#'
    · rw [read_codesAux, if_pos hskip] at h
      rw [validRecs_cons_skip l ls (skipLine_iff l |>.mpr hskip)]
      exact ih m pid m' c h
    · have hsk : skipLine l = false := by
        rw [← Bool.not_eq_true, skipLine_iff]
        exact hskip
      rw [validRecs_cons_rec l ls hsk]
      rw [read_codesAux, if_neg hskip] at h
      by_cases hlen : (splitOnChar ',' l).length = 4
      · simp only [hlen, if_pos, if_true] at h
        cases hkind : DmsrParamType.from_str ((splitOnChar ',' l).getD 2 []) with
        | error e => rw [hkind] at h; cases h
        | ok pt =>
          rw [hkind] at h
          have hrec := ih _ _ _ c h
          rw [hrec, lastRecFor]
          cases hlast : lastRecFor c (pid + 1) (validRecs ls) with
          | some x => rfl
          | none =>
            simp only
            rw [lookup_insertA]
            by_cases hc : c = (splitOnChar ',' l).getD 0 []
            · rw [if_pos hc, if_pos (hc.symm)]
              simp only [recParam, hkind]
            · rw [if_neg hc, if_neg (fun he => hc he.symm)]
      · simp only [hlen, if_neg, if_false] at h
        cases h

/-- C9: registry load succeeds exactly when every non-blank, non-comment
line has exactly 4 comma-separated fields and a recognized kind token
(case-insensitively `float` / `integer` / `string`); and on success, each
code maps to the parameter built from its LAST record (duplicates overwrite,
last one wins), whose `numericId` is the 0-based appearance index of that
record among all loaded records. -/
theorem read_codes_spec (ls : List Str) :
    ((∃ m, read_codes ls = .ok m) ↔
      ∀ l ∈ ls, ¬(l = [] ∨ l.getD 0 ' ' = '#') →
        ((splitOnChar ',' l).length = 4
          ∧ kindOk ((splitOnChar ',' l).getD 2 []) = true))
    ∧ (∀ (m : Registry) (c : Str), read_codes ls = .ok m →
        List.lookup c m =
          (match lastRecFor c 0 (validRecs ls) with
           | some x => recParam x.2 x.1
           | none => none)) := by
  constructor
  · exact read_codesAux_ok_iff ls [] 0
  · intro m c h
    have := read_codesAux_lookup ls [] 0 m c h
    rw [this]
    cases lastRecFor c 0 (validRecs ls) with
    | some x => rfl
    | none => rfl

/-- Witness for C9 at a source with a comment, a blank line and a duplicate
code: the duplicate's last record wins and numericIds follow appearance
order (the surviving record of code `a` is the second one, id 1). -/
theorem read_codes_spec_witness :
    (∃ m, read_codes ["# c".data, "".data, "a,x,float,d1".data, "a,y,INTEGER,d2".data] = .ok m)
    ∧ (∀ m, read_codes ["# c".data, "".data, "a,x,float,d1".data, "a,y,INTEGER,d2".data] = .ok m →
        List.lookup "a".data m
          = some ⟨"d2".data, "y".data, .Integer, false, 1⟩) := by
  constructor
  · exact (read_codes_spec _).1.mpr (by decide)
  · intro m hm
    have h := (read_codes_spec _).2 m "a".data hm
    rw [h]
    decide
